import Mathlib

/-!
Verification of the PixelPunk asynchronous AI-tagging queue subsystem
(package `ai`, file containing `processAIResponse`, `AddFileToQueue`,
`RecoverPendingOnStartup`, `propagateAIToDuplicates`, `updateFileStatus`,
`AiImageTaggingAndSaveWithBase64`, `InitGlobalTaggingQueue`).

The Go code is shallowly embedded: the database is a pure state value
(lists of rows), every GORM `Update`/`Updates`/`Create` call becomes a pure
state transformer, external AI-provider calls and settings reads become
explicit inputs, and fallible paths return an `Option String` error
component.  Database-level failures (deadlocks, lost connections) are not
modelled: every modelled DB operation is the operation's success path,
matching the single-process single-writer assumption of the subsystem.
Helpers whose bodies are not part of the sources in scope
(`saveFileAIInfo`, `ReplaceFileTagsTx`, `CreateTagsFromNames`,
`markFileForDeletion`, `markFileForReview`, `ResetStuckPendingFiles`) are
modelled from the specification and are marked as such in their doc
comments.
-/

namespace PixelPunk

/-- The `ai_tagging_status` enumeration
(`common.AITaggingStatusNone | Pending | Processing | Done | Failed | Skipped`). -/
inductive AIStatus where
  | statNone
  | pending
  | processing
  | done
  | failed
  | skipped
deriving DecidableEq, Repr

/-- One row of the `file` table, restricted to the columns the AI queue
subsystem reads or writes: `id`, `status`, `ai_tagging_status`,
`ai_tagging_tries`, `ai_last_heartbeat_at`, `original_file_id`, `nsfw`,
`resolution`, `description`, `is_recommended`, `category_id`,
`category_source`, `user_id`, plus the review reason attached when a file
is sent to moderation. -/
structure FileRec where
  id : String
  status : String
  aiTaggingStatus : AIStatus
  aiTaggingTries : Nat
  heartbeat : Nat
  originalFileID : Option String
  nsfw : Bool
  resolution : String
  description : String
  isRecommended : Bool
  categoryID : Option Nat
  categorySource : String
  userID : Nat
  reviewReason : String
deriving DecidableEq, Repr

/-- One row of the `file_ai_info` table (the DetectionResult record),
restricted to the fields the queue subsystem writes and propagates. -/
structure AIInfoRec where
  fileID : String
  isNSFW : Bool
  nsfwScore : Rat
  nsfwReason : String
  description : String
deriving DecidableEq, Repr

/-- One row of the `file_global_tag_relation` table, with the columns
`propagateAIToDuplicates` copies (`FileID, TagID, UserID, AccessLevel,
Source, Confidence`).  Global tags are keyed by their name (see
`processAndSaveTags`), so `tagID` is the tag's name. -/
structure TagRel where
  fileID : String
  tagID : String
  userID : Nat
  accessLevel : String
  source : String
  confidence : Rat
deriving DecidableEq, Repr

/-- One row of the `file_tagging_log` table (append-only processing log). -/
structure LogRec where
  fileID : String
  status : AIStatus
  kind : String
deriving DecidableEq, Repr

/-- One pending vector record (`createPendingVectorRecord`). -/
structure VectorRec where
  fileID : String
  description : String
deriving DecidableEq, Repr

/-- The database state visible to the AI queue subsystem. -/
structure DBState where
  files : List FileRec
  aiInfos : List AIInfoRec
  tagRels : List TagRel
  logs : List LogRec
  vectors : List VectorRec
deriving DecidableEq, Repr

/-- Embedded `tx.Model(&File).Where("id = ?", id).Updates(...)`: apply `g` to every
file row whose `id` matches. -/
def updateWhere (id : String) (g : FileRec → FileRec) (l : List FileRec) :
    List FileRec :=
  l.map fun f => if f.id = id then g f else f

/-- Embedded `db.Where("id = ?", id).First(&file)`: the first file row with this id. -/
def findFile (l : List FileRec) (id : String) : Option FileRec :=
  l.find? fun f => f.id = id

/-- The `ai_tagging_status` of the file row with the given id, if any. -/
def aiStatusOf (db : DBState) (id : String) : Option AIStatus :=
  (findFile db.files id).map (·.aiTaggingStatus)

/-- The `ai_tagging_tries` of the file row with the given id, if any. -/
def triesOf (db : DBState) (id : String) : Option Nat :=
  (findFile db.files id).map (·.aiTaggingTries)

/-- The `status` column of the file row with the given id, if any. -/
def fileStatusOf (db : DBState) (id : String) : Option String :=
  (findFile db.files id).map (·.status)

/-- Whether a file row with the given id exists. -/
def hasFile (db : DBState) (id : String) : Bool :=
  (findFile db.files id).isSome

/-- The tag relations of a file. -/
def tagsOf (db : DBState) (id : String) : List TagRel :=
  db.tagRels.filter fun r => r.fileID = id

/-- The `file_ai_info` row of a file, if any. -/
def aiInfoOf (db : DBState) (id : String) : Option AIInfoRec :=
  db.aiInfos.find? fun r => r.fileID = id

/-- Source `updateFileStatus`: writes `ai_tagging_status := status` and,
exactly when the status written is `failed`, also
`ai_tagging_tries := ai_tagging_tries + 1` (a `gorm.Expr` increment);
this is the effect on a single matching row. -/
def applyStatusUpdate (status : AIStatus) (f : FileRec) : FileRec :=
  { f with
    aiTaggingStatus := status
    aiTaggingTries :=
      if status = AIStatus.failed then f.aiTaggingTries + 1
      else f.aiTaggingTries }

/-- Source `updateFileStatus(tx, fileID, status)` over the whole table. -/
def updateFileStatusDB (db : DBState) (fileID : String) (status : AIStatus) :
    DBState :=
  { db with files := updateWhere fileID (applyStatusUpdate status) db.files }

/-- A plain `Update("ai_tagging_status", s)` (used by
`AiImageTaggingAndSaveWithBase64` directly): writes only the status column,
never touching the tries counter. -/
def setAIStatusRaw (db : DBState) (fileID : String) (status : AIStatus) :
    DBState :=
  { db with
    files := updateWhere fileID (fun f => { f with aiTaggingStatus := status })
      db.files }

/-- Source `updateFileNSFWStatus(tx, fileID, nsfw)`: `Update("nsfw", nsfw)`. -/
def updateFileNSFWStatusDB (db : DBState) (fileID : String) (nsfw : Bool) :
    DBState :=
  { db with
    files := updateWhere fileID (fun f => { f with nsfw := nsfw }) db.files }

/-- Modelled from the spec: `markFileForDeletion` (body not in the sources
in scope) soft-deletes the file — the file is hidden/removed but the row
survives; the admin review subsystem represents this by
`status = "pending_deletion"` (the status it queries for soft-deleted
files and the one `propagateAIToDuplicates` excludes). -/
def markFileForDeletion (db : DBState) (fileID : String) : DBState :=
  { db with
    files := updateWhere fileID (fun f => { f with status := "pending_deletion" })
      db.files }

/-- Modelled from the spec: `markFileForReview` (body not in the sources in
scope) puts the file in the moderation queue with the detector's reason
attached; the review subsystem queries `status = "pending_review"`. -/
def markFileForReview (db : DBState) (fileID : String) (reason : String) :
    DBState :=
  { db with
    files := updateWhere fileID
      (fun f => { f with status := "pending_review", reviewReason := reason })
      db.files }

/-- Embedded `Update("description", d)` on a file row. -/
def setFileDescription (db : DBState) (fileID : String) (d : String) : DBState :=
  { db with
    files := updateWhere fileID (fun f => { f with description := d }) db.files }

/-- Embedded `Update("is_recommended", true)` on a file row. -/
def setRecommended (db : DBState) (fileID : String) : DBState :=
  { db with
    files := updateWhere fileID (fun f => { f with isRecommended := true })
      db.files }

/-- Modelled from the spec: `saveFileAIInfo` persists the AI metadata "via
an UPSERT keyed by fileID (safe to re-run without duplicate rows)"; the
same UPSERT-on-`file_id` shape appears verbatim in
`propagateAIToDuplicates` (`clause.OnConflict{Columns: file_id, UpdateAll}`).
If a row with the same `fileID` exists it is overwritten, otherwise the
row is appended. -/
def upsertAIInfo (infos : List AIInfoRec) (rec : AIInfoRec) : List AIInfoRec :=
  if infos.any (fun r => r.fileID = rec.fileID) then
    infos.map fun r => if r.fileID = rec.fileID then rec else r
  else infos ++ [rec]

/-- Modelled from the spec: `common.AIDefaultConfidence`, the confidence
recorded on AI-created tag relations (value immaterial to the claims). -/
def aiDefaultConfidence : Rat := 1

/-- Modelled from the spec: `ReplaceFileTagsTx(tx, fileID, tagIDs, "ai",
confidence)` replaces the file's tag associations with one relation per
tag id, sourced `"ai"`.  `CreateTagsFromNames` is get-or-create keyed by
the tag name, so tag ids are identified with tag names here. -/
def replaceFileTags (rels : List TagRel) (fileID : String) (userID : Nat)
    (tagIDs : List String) : List TagRel :=
  rels.filter (fun r => ¬ r.fileID = fileID) ++
    tagIDs.map fun t =>
      { fileID := fileID, tagID := t, userID := userID, accessLevel := ""
        source := "ai", confidence := aiDefaultConfidence }

/-- Source `processAndSaveTags(tx, file, tags)`: no-op on an empty tag
list, otherwise get-or-create the global tags and replace the file's tag
relations with them. -/
def processAndSaveTags (db : DBState) (file : FileRec) (tags : List String) :
    DBState :=
  if tags = [] then db
  else { db with tagRels := replaceFileTags db.tagRels file.id file.userID tags }

/-- Embedded `createPendingVectorRecord(fileID, description)`: records a pending
vector-indexing job for the file. -/
def addVector (db : DBState) (fileID : String) (d : String) : DBState :=
  { db with vectors := db.vectors ++ [⟨fileID, d⟩] }

/-- The `FileTaggingLog` row written on `tagging.ai_completed`. -/
def addUsageLog (db : DBState) (fileID : String) : DBState :=
  { db with logs := db.logs ++ [⟨fileID, AIStatus.done, "tagging.ai_completed"⟩] }

/-! ## The AI provider response -/

/-- The `ContentSafety` block of `AITaggingResult`, restricted to the fields
`processAIResponse` reads (`IsNSFW`, `NSFWScore`, `NSFWReason`). -/
structure ContentSafety where
  isNSFW : Bool
  nsfwScore : Rat
  nsfwReason : String
deriving DecidableEq, Repr

/-- Source `AITaggingResult`, restricted to the fields `processAIResponse` reads:
`BasicInfo.Resolution`, `Description`, `IsRecommended`, `Tags`,
`ContentSafety`. -/
structure AITaggingResult where
  resolution : String
  description : String
  isRecommended : Bool
  tags : List String
  contentSafety : ContentSafety
deriving DecidableEq, Repr

/-- Token usage attached to a provider response. -/
structure UsageRec where
  promptTokens : Nat
  completionTokens : Nat
  totalTokens : Nat
deriving DecidableEq, Repr

/-- Source `AIFileResponse` as read by `processAIResponse`: `Success`, `ErrMsg`,
`Data` (held here already parsed by `parseAITaggingResult`, whose JSON
decoding is external to this subsystem: `Option.none` means the payload did
not parse), `Usage`, and `RawResponse` (held here as the outcome of the
OpenAI-format JSON decode inside `isNSFWRejection`: `Option.none` means the
raw response was empty or not decodable, `Option.some cs` the per-choice
message contents). -/
structure AIFileResponse where
  success : Bool
  errMsg : String
  data : Option AITaggingResult
  usage : Option UsageRec
  rawChoices : Option (List String)
deriving DecidableEq, Repr

/-- Whether the character list `pat` occurs at the start of `s`. -/
def startsWithList : List Char → List Char → Bool
  | [], _ => true
  | _ :: _, [] => false
  | a :: as, b :: bs => a = b && startsWithList as bs

/-- Whether the character list `pat` occurs contiguously inside `s`
(`strings.Contains`). -/
def hasSubList (pat : List Char) : List Char → Bool
  | [] => startsWithList pat []
  | b :: bs => startsWithList pat (b :: bs) || hasSubList pat bs

/-- Go's `strings.Contains(s, pat)`. -/
def strContains (s pat : String) : Bool :=
  hasSubList pat.data s.data

/-- The refusal keywords `isNSFWRejection` scans choice contents for. -/
def refusalKeywords : List String :=
  ["抱歉", "无法处理", "无法协助", "不适合", "不适当", "违反"]

/-- Source `isNSFWRejection`: an unsuccessful provider reply counts as an
NSFW refusal when its raw response decodes as an OpenAI chat reply and some
choice's message content contains one of the refusal keywords. -/
def isNSFWRejection (resp : AIFileResponse) : Bool :=
  match resp.rawChoices with
  | Option.none => false
  | Option.some cs =>
      cs.any fun c => refusalKeywords.any fun k => strContains c k

/-! ## `processAIResponse` -/

/-- The `file_ai_info` row `saveFileAIInfo` builds from a parsed result. -/
def mkAIInfo (fileID : String) (result : AITaggingResult) : AIInfoRec :=
  { fileID := fileID
    isNSFW := result.contentSafety.isNSFW
    nsfwScore := result.contentSafety.nsfwScore
    nsfwReason := result.contentSafety.nsfwReason
    description := result.description }

/-- The branch of `processAIResponse` (source) taken when
`aiResp == nil || !aiResp.Success`: on a recognized NSFW refusal (with
content detection on) the file is handled per `sensitiveContentHandling`,
the job status is written `done`, and a non-nil error is returned;
otherwise the job status is written `failed` and the provider's error
message is returned. -/
def processAIFailure (db : DBState) (file : FileRec)
    (aiResp : Option AIFileResponse) (contentDetectionEnabled : Bool)
    (sensitiveContentHandling : String) : DBState × Option String :=
  let errMsg :=
    match aiResp with
    | Option.some r => if r.errMsg ≠ "" then r.errMsg else "AI分析返回无效结果"
    | Option.none => "AI分析返回无效结果"
  match aiResp with
  | Option.some r =>
      if contentDetectionEnabled && isNSFWRejection r then
        let db1 :=
          if sensitiveContentHandling = "auto_delete" then
            markFileForDeletion db file.id
          else
            let db2 := updateFileNSFWStatusDB db file.id true
            if sensitiveContentHandling = "pending_review" then
              markFileForReview db2 file.id
                (if r.errMsg ≠ "" then r.errMsg
                 else "AI检测到违规内容，详细原因不可用")
            else db2
        (updateFileStatusDB db1 file.id AIStatus.done,
         Option.some ("文件 " ++ file.id ++ " 疑似违规内容，AI拒绝处理"))
      else
        (updateFileStatusDB db file.id AIStatus.failed, Option.some errMsg)
  | Option.none =>
      (updateFileStatusDB db file.id AIStatus.failed, Option.some errMsg)

/-- The successful branch of `processAIResponse` (source): override the
resolution with the file's own when present, UPSERT the AI info row, write
back an AI recommendation, save tags (skipped only for sensitive content
under `auto_delete`; under `pending_review` the file is first marked for
review, under the default mark-only mode tags are saved as-is), set the
`nsfw` flag when detection is on and the result is NSFW, write job status
`done`, create a pending vector record when a description was produced, and
append a usage log row when the provider reported usage.  (The final
`go propagateAIToDuplicates` runs asynchronously and is modelled as the
separate function `propagateAIToDuplicates`.) -/
def processAISuccess (db : DBState) (file : FileRec) (resp : AIFileResponse)
    (result0 : AITaggingResult) (contentDetectionEnabled : Bool)
    (sensitiveContentHandling : String) : DBState × Option String :=
  let result :=
    if file.resolution ≠ "" then { result0 with resolution := file.resolution }
    else result0
  let db := { db with aiInfos := upsertAIInfo db.aiInfos (mkAIInfo file.id result) }
  let db := if result.isRecommended then setRecommended db file.id else db
  let db :=
    if ¬ contentDetectionEnabled ∨ result.contentSafety.isNSFW = false then
      processAndSaveTags db file result.tags
    else if sensitiveContentHandling = "auto_delete" then
      markFileForDeletion db file.id
    else if sensitiveContentHandling = "pending_review" then
      processAndSaveTags
        (markFileForReview db file.id result.contentSafety.nsfwReason)
        file result.tags
    else
      processAndSaveTags db file result.tags
  let db :=
    if contentDetectionEnabled && result.contentSafety.isNSFW then
      updateFileNSFWStatusDB db file.id true
    else db
  let db := updateFileStatusDB db file.id AIStatus.done
  let db :=
    if result.description ≠ "" then addVector db file.id result.description
    else db
  let db := if resp.usage.isSome then addUsageLog db file.id else db
  (db, Option.none)

/-- Source `processAIResponse(tx, file, aiResp, contentDetectionEnabled,
sensitiveContentHandling, ...)` (source), returning the updated database
state and the returned error, if any. -/
def processAIResponse (db : DBState) (file : FileRec)
    (aiResp : Option AIFileResponse) (contentDetectionEnabled : Bool)
    (sensitiveContentHandling : String) : DBState × Option String :=
  match aiResp with
  | Option.none =>
      processAIFailure db file Option.none contentDetectionEnabled
        sensitiveContentHandling
  | Option.some resp =>
      if resp.success = false then
        processAIFailure db file (Option.some resp) contentDetectionEnabled
          sensitiveContentHandling
      else
        match resp.data with
        | Option.none =>
            (updateFileStatusDB db file.id AIStatus.failed,
             Option.some "解析AI返回数据失败")
        | Option.some result =>
            processAISuccess db file resp result contentDetectionEnabled
              sensitiveContentHandling

/-! ## `AiImageTaggingAndSaveWithBase64` -/

/-- Settings read at the top of `AiImageTaggingAndSaveWithBase64`:
`content_detection_enabled`, `sensitive_content_handling`,
`ai_analysis_enabled`. -/
structure TaggingSettings where
  contentDetectionEnabled : Bool
  sensitiveContentHandling : String
  aiAnalysisEnabled : Bool
deriving DecidableEq, Repr

/-- Source `AiImageTaggingAndSaveWithBase64`, with the two external
provider calls (`performAIImageCategorizationOutsideTx`,
`performAITagging`) supplied as explicit outcomes.  On a provider failure
of either call the job status is set `skipped` by a plain column update
(no tries increment) and `nil` is returned.  On success the file's
existence is checked (`errFileDeleted` when the row vanished), the AI
response is processed (its error only logged), and the job status is
finally set `done`.  (`saveCategoryResultIfNeeded` touches only category
tables outside this subsystem's state and its error is ignored, so it has
no footprint here.) -/
def aiImageTaggingAndSave (settings : TaggingSettings) (db : DBState)
    (file : FileRec) (categoryCall : Except String Unit)
    (taggingCall : Except String AIFileResponse) : DBState × Option String :=
  if settings.aiAnalysisEnabled = false then
    (setAIStatusRaw db file.id AIStatus.skipped, Option.none)
  else
    match categoryCall with
    | Except.error _ => (setAIStatusRaw db file.id AIStatus.skipped, Option.none)
    | Except.ok _ =>
        match taggingCall with
        | Except.error _ =>
            (setAIStatusRaw db file.id AIStatus.skipped, Option.none)
        | Except.ok resp =>
            if hasFile db file.id = false then (db, Option.some "ai:file_deleted")
            else
              let step := processAIResponse db file (Option.some resp)
                settings.contentDetectionEnabled
                settings.sensitiveContentHandling
              (setAIStatusRaw step.1 file.id AIStatus.done, Option.none)

/-! ## `AddFileToQueue` -/

/-- What `AddFileToQueue` ends up doing with the file, beyond the status
write: handed to the in-memory queue, executed synchronously via
`ProcessSingleFile`, left pending for a later sweep, or nothing because no
service instance exists. -/
inductive QueueAction where
  | noService
  | enqueued
  | syncProcessed
  | leftPending
deriving DecidableEq, Repr

/-- The first write of `AddFileToQueue`: `ai_tagging_status := pending`
with a fresh `ai_last_heartbeat_at`. -/
def markPendingWithHeartbeat (db : DBState) (fileID : String) (now : Nat) :
    DBState :=
  { db with
    files := updateWhere fileID
      (fun f => { f with aiTaggingStatus := AIStatus.pending, heartbeat := now })
      db.files }

/-- Source `AddFileToQueue(file)`.  `svcAvailable` is whether a global
`TaggingService` exists after the re-init attempt (it stays `nil` when the
feature is disabled), `hasTaskQueue` whether `svc.taskQueue != nil`,
`enqueueRejected` whether `EnqueueUnique` returned an error (body not in
the sources in scope; abstracted to its outcome), `paused` the service's
paused flag, `now` the heartbeat timestamp.  With no service the function
returns immediately and writes nothing.  Otherwise the job is first marked
`pending` with a fresh heartbeat; a rejected enqueue (or a missing task
queue) falls back to `ProcessSingleFile` only when the service is not
paused, and when paused the job is simply left pending. -/
def addFileToQueue (svcAvailable hasTaskQueue paused enqueueRejected : Bool)
    (db : DBState) (fileID : String) (now : Nat) : DBState × QueueAction :=
  if svcAvailable = false then (db, QueueAction.noService)
  else
    let db1 := markPendingWithHeartbeat db fileID now
    if hasTaskQueue then
      if enqueueRejected then
        if paused then (db1, QueueAction.leftPending)
        else (db1, QueueAction.syncProcessed)
      else (db1, QueueAction.enqueued)
    else
      if paused then (db1, QueueAction.leftPending)
      else (db1, QueueAction.syncProcessed)

/-! ## `propagateAIToDuplicates` -/

/-- The clone built in the tag-copy loop of `propagateAIToDuplicates`: the
same relation pointed at the duplicate. -/
def retargetRel (did : String) (r : TagRel) : TagRel :=
  { r with fileID := did }

/-- The final `Updates` of one loop iteration of `propagateAIToDuplicates`:
job status `done`, plus the original's category when it has one. -/
def setDupDone (db : DBState) (dupID : String) (catID : Option Nat)
    (catSource : String) : DBState :=
  { db with
    files := updateWhere dupID
      (fun f =>
        match catID with
        | Option.some c =>
            { f with aiTaggingStatus := AIStatus.done, categoryID := Option.some c
                     categorySource := catSource }
        | Option.none => { f with aiTaggingStatus := AIStatus.done })
      db.files }

/-- One iteration of the loop in `propagateAIToDuplicates` (source): clone
the original's AI info row to the duplicate via UPSERT (and copy its
description over) when the original has one; copy the original's tag
relations when the duplicate has none; then mark the duplicate's job `done`
with the original's category. -/
def propagateToOne (orig : FileRec) (origAI : Option AIInfoRec)
    (originalID : String) (db : DBState) (dup : FileRec) : DBState :=
  let db :=
    match origAI with
    | Option.some ai =>
        let clone := { ai with fileID := dup.id }
        let db := { db with aiInfos := upsertAIInfo db.aiInfos clone }
        if clone.description ≠ "" then setFileDescription db dup.id clone.description
        else db
    | Option.none => db
  let db :=
    if db.tagRels.filter (fun r => r.fileID = dup.id) = [] then
      { db with
        tagRels := db.tagRels ++
          (db.tagRels.filter (fun r => r.fileID = originalID)).map
            (retargetRel dup.id) }
    else db
  setDupDone db dup.id orig.categoryID orig.categorySource

/-- Source `propagateAIToDuplicates(originalID)`: look up the original
(bailing out when it is gone), read its AI info row, collect the duplicates
(`original_file_id = originalID` and `status <> "pending_deletion"`), and
run `propagateToOne` over them. -/
def propagateAIToDuplicates (db : DBState) (originalID : String) : DBState :=
  match findFile db.files originalID with
  | Option.none => db
  | Option.some orig =>
      let origAI := db.aiInfos.find? fun r => r.fileID = originalID
      let dups := db.files.filter fun f =>
        f.originalFileID = Option.some originalID ∧ ¬ f.status = "pending_deletion"
      if dups = [] then db
      else dups.foldl (propagateToOne orig origAI originalID) db

/-! ## Startup recovery, stuck-job maintenance, persistence step -/

/-- Source `RecoverPendingOnStartup(limit)`: inside one transaction,
pluck the ids of (at most `limit`, when `limit > 0`) files whose
`ai_tagging_status` is `pending`, then set exactly those rows to
`ai_tagging_status = none, ai_tagging_tries = 0`.  Returns the new state
and the plucked ids. -/
def recoverPendingOnStartup (db : DBState) (limit : Nat) :
    DBState × List String :=
  let pendingIDs :=
    (db.files.filter fun f => f.aiTaggingStatus = AIStatus.pending).map (·.id)
  let affected := if 0 < limit then pendingIDs.take limit else pendingIDs
  if affected = [] then (db, affected)
  else
    ({ db with
        files := db.files.map fun f =>
          if f.id ∈ affected then
            { f with aiTaggingStatus := AIStatus.statNone, aiTaggingTries := 0 }
          else f },
     affected)

/-- The fixed period of the stuck-job maintenance loop in
`InitGlobalTaggingQueue` (`time.NewTicker(60 * time.Second)`). -/
def maintenanceIntervalSeconds : Nat := 60

/-- Modelled from the spec: `ResetStuckPendingFiles(thresholdMinutes)`
(body not in the sources in scope) resets every job still
`pending`/`processing` whose heartbeat is older than the threshold back to
`pending`, returning how many it reset. -/
def resetStuckFiles (db : DBState) (now thresholdMinutes : Nat) :
    DBState × Nat :=
  let stuckPred := fun f : FileRec =>
    (f.aiTaggingStatus = AIStatus.pending ∨
     f.aiTaggingStatus = AIStatus.processing) ∧
    f.heartbeat + thresholdMinutes * 60 < now
  (({ db with
      files := db.files.map fun f =>
        if stuckPred f then { f with aiTaggingStatus := AIStatus.pending } else f }),
   (db.files.filter stuckPred).length)

/-- One tick of the stuck-job maintenance loop in `InitGlobalTaggingQueue`
(source): run the stuck reset, then run the bulk `EnqueueAllPending(1000)`
sweep exactly when at least one job was reclaimed and the service is not
paused.  The returned flag records whether the sweep ran. -/
def maintenanceTick (db : DBState) (now thresholdMinutes : Nat)
    (paused : Bool) : DBState × Bool :=
  let step := resetStuckFiles db now thresholdMinutes
  if 0 < step.2 ∧ paused = false then (step.1, true) else (step.1, false)

/-- The persistence portion of a successful Executor run: the
`saveFileAIInfo` UPSERT keyed by `fileID` followed by
`processAndSaveTags` over the parsed result's tags. -/
def persistAIResult (db : DBState) (file : FileRec)
    (result : AITaggingResult) : DBState :=
  processAndSaveTags
    { db with aiInfos := upsertAIInfo db.aiInfos (mkAIInfo file.id result) }
    file result.tags

/-! ## Basic lemmas about row lookup and row update -/

theorem updateWhere_id (id : String) (g : FileRec → FileRec)
    (hg : ∀ f, (g f).id = f.id) (f : FileRec) :
    (if f.id = id then g f else f).id = f.id := by
  by_cases hf : f.id = id <;> simp [hf, hg f]

theorem findFile_updateWhere (id x : String) (g : FileRec → FileRec)
    (hg : ∀ f, (g f).id = f.id) (l : List FileRec) :
    findFile (updateWhere id g l) x =
      (findFile l x).map fun f => if f.id = id then g f else f := by
  induction l with
  | nil => rfl
  | cons a as ih =>
      by_cases h : a.id = x
      · rw [updateWhere, List.map_cons, findFile,
            List.find?_cons_of_pos _
              (by simp only [decide_eq_true_eq, updateWhere_id id g hg a]
                  exact h),
            findFile, List.find?_cons_of_pos _ (by simp [h])]
        rfl
      · rw [updateWhere, List.map_cons, findFile,
            List.find?_cons_of_neg _
              (by simp only [decide_eq_true_eq, updateWhere_id id g hg a]
                  exact h),
            findFile, List.find?_cons_of_neg _ (by simp [h])]
        exact ih

theorem findFile_id {l : List FileRec} {x : String} {f : FileRec}
    (h : findFile l x = Option.some f) : f.id = x := by
  have := List.find?_some h
  simpa using this

theorem findFile_of_mem {l : List FileRec} {f : FileRec} (h : f ∈ l) :
    ∃ f', findFile l f.id = Option.some f' := by
  have : (l.find? fun f' => f'.id = f.id).isSome := by
    rw [List.find?_isSome]
    exact ⟨f, h, by simp⟩
  rcases Option.isSome_iff_exists.mp this with ⟨f', hf'⟩
  exact ⟨f', hf'⟩

/-- A column selector that the row update `g` does not change reads the
same value after `updateWhere`. -/
theorem selOf_updateWhere_const {β : Type} (sel : FileRec → β)
    (g : FileRec → FileRec) (hg : ∀ f, (g f).id = f.id)
    (hsel : ∀ f, sel (g f) = sel f) (fid x : String) (l : List FileRec) :
    (findFile (updateWhere fid g l) x).map sel = (findFile l x).map sel := by
  rw [findFile_updateWhere fid x g hg]
  cases hf : findFile l x with
  | none => rfl
  | some f => by_cases hx : f.id = fid <;> simp [hx, hsel f]

/-- A column selector that the row update `g` sets to the constant `v`
reads `v` on the touched id (when the row exists) and the old value
elsewhere. -/
theorem selOf_updateWhere_set {β : Type} (sel : FileRec → β)
    (g : FileRec → FileRec) (hg : ∀ f, (g f).id = f.id) (v : β)
    (hsel : ∀ f, sel (g f) = v) (fid x : String) (l : List FileRec) :
    (findFile (updateWhere fid g l) x).map sel =
      if x = fid then ((findFile l x).map sel).map fun _ => v
      else (findFile l x).map sel := by
  rw [findFile_updateWhere fid x g hg]
  cases hf : findFile l x with
  | none => by_cases hx : x = fid <;> simp [hx]
  | some f =>
      have hid := findFile_id hf
      by_cases hx : x = fid <;> simp [hid, hx, hsel f]

theorem hasFile_updateWhere (g : FileRec → FileRec)
    (hg : ∀ f, (g f).id = f.id) (db : DBState) (fid x : String) :
    hasFile { db with files := updateWhere fid g db.files } x = hasFile db x := by
  simp only [hasFile, findFile_updateWhere fid x g hg]
  cases findFile db.files x <;> rfl

/-! Per-operation query lemmas.  Each database operation touches a fixed
set of columns; every query reading an untouched column is unchanged, and
a query on the touched id reads the written value. -/

theorem aiStatusOf_updateFileStatusDB (db : DBState) (fid st x) :
    aiStatusOf (updateFileStatusDB db fid st) x =
      if x = fid then (aiStatusOf db x).map fun _ => st
      else aiStatusOf db x := by
  simp only [aiStatusOf, updateFileStatusDB]
  apply selOf_updateWhere_set <;> exact fun f => rfl

theorem triesOf_updateFileStatusDB (db : DBState) (fid st x) :
    triesOf (updateFileStatusDB db fid st) x =
      if x = fid then
        (triesOf db x).map fun t =>
          if st = AIStatus.failed then t + 1 else t
      else triesOf db x := by
  simp only [triesOf, updateFileStatusDB]
  rw [findFile_updateWhere fid x (applyStatusUpdate st) (fun f => rfl)]
  cases hf : findFile db.files x with
  | none => by_cases hx : x = fid <;> simp [hx]
  | some f =>
      have hid := findFile_id hf
      by_cases hx : x = fid <;> simp [hid, hx, applyStatusUpdate]

theorem fileStatusOf_updateFileStatusDB (db : DBState) (fid st x) :
    fileStatusOf (updateFileStatusDB db fid st) x = fileStatusOf db x := by
  simp only [fileStatusOf, updateFileStatusDB]
  apply selOf_updateWhere_const <;> exact fun f => rfl

theorem aiStatusOf_setAIStatusRaw (db : DBState) (fid st x) :
    aiStatusOf (setAIStatusRaw db fid st) x =
      if x = fid then (aiStatusOf db x).map fun _ => st
      else aiStatusOf db x := by
  simp only [aiStatusOf, setAIStatusRaw]
  apply selOf_updateWhere_set <;> exact fun f => rfl

theorem triesOf_setAIStatusRaw (db : DBState) (fid st x) :
    triesOf (setAIStatusRaw db fid st) x = triesOf db x := by
  simp only [triesOf, setAIStatusRaw]
  apply selOf_updateWhere_const <;> exact fun f => rfl

theorem aiStatusOf_updateFileNSFWStatusDB (db : DBState) (fid b x) :
    aiStatusOf (updateFileNSFWStatusDB db fid b) x = aiStatusOf db x := by
  simp only [aiStatusOf, updateFileNSFWStatusDB]
  apply selOf_updateWhere_const <;> exact fun f => rfl

theorem triesOf_updateFileNSFWStatusDB (db : DBState) (fid b x) :
    triesOf (updateFileNSFWStatusDB db fid b) x = triesOf db x := by
  simp only [triesOf, updateFileNSFWStatusDB]
  apply selOf_updateWhere_const <;> exact fun f => rfl

theorem fileStatusOf_updateFileNSFWStatusDB (db : DBState) (fid b x) :
    fileStatusOf (updateFileNSFWStatusDB db fid b) x = fileStatusOf db x := by
  simp only [fileStatusOf, updateFileNSFWStatusDB]
  apply selOf_updateWhere_const <;> exact fun f => rfl

theorem aiStatusOf_markFileForDeletion (db : DBState) (fid x) :
    aiStatusOf (markFileForDeletion db fid) x = aiStatusOf db x := by
  simp only [aiStatusOf, markFileForDeletion]
  apply selOf_updateWhere_const <;> exact fun f => rfl

theorem triesOf_markFileForDeletion (db : DBState) (fid x) :
    triesOf (markFileForDeletion db fid) x = triesOf db x := by
  simp only [triesOf, markFileForDeletion]
  apply selOf_updateWhere_const <;> exact fun f => rfl

theorem fileStatusOf_markFileForDeletion (db : DBState) (fid x) :
    fileStatusOf (markFileForDeletion db fid) x =
      if x = fid then (fileStatusOf db x).map fun _ => "pending_deletion"
      else fileStatusOf db x := by
  simp only [fileStatusOf, markFileForDeletion]
  apply selOf_updateWhere_set <;> exact fun f => rfl

theorem aiStatusOf_markFileForReview (db : DBState) (fid r x) :
    aiStatusOf (markFileForReview db fid r) x = aiStatusOf db x := by
  simp only [aiStatusOf, markFileForReview]
  apply selOf_updateWhere_const <;> exact fun f => rfl

theorem triesOf_markFileForReview (db : DBState) (fid r x) :
    triesOf (markFileForReview db fid r) x = triesOf db x := by
  simp only [triesOf, markFileForReview]
  apply selOf_updateWhere_const <;> exact fun f => rfl

theorem fileStatusOf_markFileForReview (db : DBState) (fid r x) :
    fileStatusOf (markFileForReview db fid r) x =
      if x = fid then (fileStatusOf db x).map fun _ => "pending_review"
      else fileStatusOf db x := by
  simp only [fileStatusOf, markFileForReview]
  apply selOf_updateWhere_set <;> exact fun f => rfl

theorem aiStatusOf_setRecommended (db : DBState) (fid x) :
    aiStatusOf (setRecommended db fid) x = aiStatusOf db x := by
  simp only [aiStatusOf, setRecommended]
  apply selOf_updateWhere_const <;> exact fun f => rfl

theorem fileStatusOf_setRecommended (db : DBState) (fid x) :
    fileStatusOf (setRecommended db fid) x = fileStatusOf db x := by
  simp only [fileStatusOf, setRecommended]
  apply selOf_updateWhere_const <;> exact fun f => rfl

theorem aiStatusOf_setFileDescription (db : DBState) (fid d x) :
    aiStatusOf (setFileDescription db fid d) x = aiStatusOf db x := by
  simp only [aiStatusOf, setFileDescription]
  apply selOf_updateWhere_const <;> exact fun f => rfl

end PixelPunk

namespace PixelPunk

/-! ## Sample inputs used by concrete witnesses and counterexamples -/

/-- A fresh active file row with the given id. -/
def mkFile (id : String) : FileRec :=
  { id := id, status := "active", aiTaggingStatus := AIStatus.statNone
    aiTaggingTries := 0, heartbeat := 0, originalFileID := Option.none
    nsfw := false, resolution := "", description := "", isRecommended := false
    categoryID := Option.none, categorySource := "", userID := 1
    reviewReason := "" }

/-- A database holding the given file rows and nothing else. -/
def mkDB (fs : List FileRec) : DBState :=
  { files := fs, aiInfos := [], tagRels := [], logs := [], vectors := [] }

/-- A successful provider response carrying the parsed result. -/
def mkSuccessResp (result : AITaggingResult) : AIFileResponse :=
  { success := true, errMsg := "", data := Option.some result
    usage := Option.none, rawChoices := Option.none }

/-- A parsed result with the given safety verdict and tags. -/
def mkResult (isNSFW : Bool) (score : Rat) (tags : List String) :
    AITaggingResult :=
  { resolution := "", description := "", isRecommended := false, tags := tags
    contentSafety := { isNSFW := isNSFW, nsfwScore := score, nsfwReason := "r" } }

end PixelPunk

namespace PixelPunk


end PixelPunk

namespace PixelPunk

theorem mapConstOfIsSome {α β : Type} (o : Option α) (v : β)
    (h : o.isSome = true) : o.map (fun _ => v) = Option.some v := by
  cases o with
  | none => simp at h
  | some a => rfl

theorem hasFile_updateFileStatusDB (db : DBState) (fid st x) :
    hasFile (updateFileStatusDB db fid st) x = hasFile db x := by
  apply hasFile_updateWhere <;> exact fun f => rfl

theorem hasFile_setAIStatusRaw (db : DBState) (fid st x) :
    hasFile (setAIStatusRaw db fid st) x = hasFile db x := by
  apply hasFile_updateWhere <;> exact fun f => rfl

theorem hasFile_updateFileNSFWStatusDB (db : DBState) (fid b x) :
    hasFile (updateFileNSFWStatusDB db fid b) x = hasFile db x := by
  apply hasFile_updateWhere <;> exact fun f => rfl

theorem hasFile_markFileForDeletion (db : DBState) (fid x) :
    hasFile (markFileForDeletion db fid) x = hasFile db x := by
  apply hasFile_updateWhere <;> exact fun f => rfl

theorem hasFile_markFileForReview (db : DBState) (fid r x) :
    hasFile (markFileForReview db fid r) x = hasFile db x := by
  apply hasFile_updateWhere <;> exact fun f => rfl

theorem hasFile_setRecommended (db : DBState) (fid x) :
    hasFile (setRecommended db fid) x = hasFile db x := by
  apply hasFile_updateWhere <;> exact fun f => rfl

theorem hasFile_setFileDescription (db : DBState) (fid d x) :
    hasFile (setFileDescription db fid d) x = hasFile db x := by
  apply hasFile_updateWhere <;> exact fun f => rfl

theorem fileStatusOf_setFileDescription (db : DBState) (fid d x) :
    fileStatusOf (setFileDescription db fid d) x = fileStatusOf db x := by
  simp only [fileStatusOf, setFileDescription]
  apply selOf_updateWhere_const <;> exact fun f => rfl

theorem triesOf_setFileDescription (db : DBState) (fid d x) :
    triesOf (setFileDescription db fid d) x = triesOf db x := by
  simp only [triesOf, setFileDescription]
  apply selOf_updateWhere_const <;> exact fun f => rfl

theorem triesOf_setRecommended (db : DBState) (fid x) :
    triesOf (setRecommended db fid) x = triesOf db x := by
  simp only [triesOf, setRecommended]
  apply selOf_updateWhere_const <;> exact fun f => rfl

/-! Operations that touch only non-`files` tables leave every file-row
query unchanged. -/

theorem aiStatusOf_processAndSaveTags (db : DBState) (file ts x) :
    aiStatusOf (processAndSaveTags db file ts) x = aiStatusOf db x := by
  unfold processAndSaveTags; split <;> rfl

theorem triesOf_processAndSaveTags (db : DBState) (file ts x) :
    triesOf (processAndSaveTags db file ts) x = triesOf db x := by
  unfold processAndSaveTags; split <;> rfl

theorem fileStatusOf_processAndSaveTags (db : DBState) (file ts x) :
    fileStatusOf (processAndSaveTags db file ts) x = fileStatusOf db x := by
  unfold processAndSaveTags; split <;> rfl

theorem hasFile_processAndSaveTags (db : DBState) (file ts x) :
    hasFile (processAndSaveTags db file ts) x = hasFile db x := by
  unfold processAndSaveTags; split <;> rfl

theorem aiStatusOf_addVector (db : DBState) (fid d x) :
    aiStatusOf (addVector db fid d) x = aiStatusOf db x := rfl

theorem fileStatusOf_addVector (db : DBState) (fid d x) :
    fileStatusOf (addVector db fid d) x = fileStatusOf db x := rfl

theorem triesOf_addVector (db : DBState) (fid d x) :
    triesOf (addVector db fid d) x = triesOf db x := rfl

theorem aiStatusOf_addUsageLog (db : DBState) (fid x) :
    aiStatusOf (addUsageLog db fid) x = aiStatusOf db x := rfl

theorem fileStatusOf_addUsageLog (db : DBState) (fid x) :
    fileStatusOf (addUsageLog db fid) x = fileStatusOf db x := rfl

theorem triesOf_addUsageLog (db : DBState) (fid x) :
    triesOf (addUsageLog db fid) x = triesOf db x := rfl

/-- C6.  For every status-update operation on a job record
(`updateFileStatus`), the tries counter is incremented exactly when the
status being written is `failed`; any other status write leaves the
counter unchanged, so `ai_tagging_tries` counts exactly the transitions
into `failed`. -/
theorem c6_tries_counts_failed_transitions (status : AIStatus) (f : FileRec) :
    (applyStatusUpdate status f).aiTaggingStatus = status ∧
    (applyStatusUpdate status f).aiTaggingTries =
      (if status = AIStatus.failed then f.aiTaggingTries + 1
       else f.aiTaggingTries) ∧
    ((applyStatusUpdate status f).aiTaggingTries ≠ f.aiTaggingTries ↔
      status = AIStatus.failed) := by
  refine ⟨rfl, rfl, ?_⟩
  by_cases h : status = AIStatus.failed <;> simp [applyStatusUpdate, h]

end PixelPunk

namespace PixelPunk

theorem fileStatusOf_ite (c : Prop) [Decidable c] (a b : DBState) (x) :
    fileStatusOf (if c then a else b) x =
      if c then fileStatusOf a x else fileStatusOf b x := by
  split_ifs <;> rfl

theorem aiStatusOf_ite (c : Prop) [Decidable c] (a b : DBState) (x) :
    aiStatusOf (if c then a else b) x =
      if c then aiStatusOf a x else aiStatusOf b x := by
  split_ifs <;> rfl

theorem triesOf_ite (c : Prop) [Decidable c] (a b : DBState) (x) :
    triesOf (if c then a else b) x =
      if c then triesOf a x else triesOf b x := by
  split_ifs <;> rfl

theorem tagsOf_ite (c : Prop) [Decidable c] (a b : DBState) (x) :
    tagsOf (if c then a else b) x =
      if c then tagsOf a x else tagsOf b x := by
  split_ifs <;> rfl

/-- C9.  When content detection is enabled and the provider's unsuccessful
response is recognized as an NSFW refusal, `processAIResponse` writes the
terminal job status `done` (so the tries counter is not incremented and
the job is not retried) and still returns a non-nil error to its caller:
the operation both reports an error and records success. -/
theorem c9_nsfw_rejection_reports_error_and_done (db : DBState)
    (file : FileRec) (resp : AIFileResponse) (handling : String)
    (hmem : hasFile db file.id = true)
    (hsucc : resp.success = false)
    (hrej : isNSFWRejection resp = true) :
    aiStatusOf (processAIResponse db file (Option.some resp) true handling).1
        file.id = Option.some AIStatus.done ∧
    triesOf (processAIResponse db file (Option.some resp) true handling).1
        file.id = triesOf db file.id ∧
    (processAIResponse db file (Option.some resp) true handling).2 ≠
      Option.none := by
  have hmem' : (findFile db.files file.id).isSome = true := hmem
  rcases Option.isSome_iff_exists.mp hmem' with ⟨f0, hf0⟩
  simp only [processAIResponse, hsucc, if_pos, eq_self_iff_true, if_true,
    processAIFailure, hrej, Bool.true_and]
  refine ⟨?_, ?_, by simp⟩
  · simp only [aiStatusOf_updateFileStatusDB, eq_self_iff_true, if_true,
      aiStatusOf_ite, aiStatusOf_markFileForDeletion,
      aiStatusOf_markFileForReview, aiStatusOf_updateFileNSFWStatusDB,
      ite_self]
    simp [aiStatusOf, hf0]
  · simp only [triesOf_updateFileStatusDB, eq_self_iff_true, if_true,
      triesOf_ite, triesOf_markFileForDeletion, triesOf_markFileForReview,
      triesOf_updateFileNSFWStatusDB, ite_self]
    simp [triesOf, hf0]

/-- C9 witness: a concrete refusal input exercising the theorem. -/
theorem c9_witness :
    aiStatusOf (processAIResponse (mkDB [mkFile "f1"]) (mkFile "f1")
        (Option.some { success := false, errMsg := "", data := Option.none
                       usage := Option.none
                       rawChoices := Option.some ["抱歉，这个无法处理"] })
        true "mark_only").1 "f1" = Option.some AIStatus.done ∧
    triesOf (processAIResponse (mkDB [mkFile "f1"]) (mkFile "f1")
        (Option.some { success := false, errMsg := "", data := Option.none
                       usage := Option.none
                       rawChoices := Option.some ["抱歉，这个无法处理"] })
        true "mark_only").1 "f1" = triesOf (mkDB [mkFile "f1"]) "f1" ∧
    (processAIResponse (mkDB [mkFile "f1"]) (mkFile "f1")
        (Option.some { success := false, errMsg := "", data := Option.none
                       usage := Option.none
                       rawChoices := Option.some ["抱歉，这个无法处理"] })
        true "mark_only").2 ≠ Option.none :=
  c9_nsfw_rejection_reports_error_and_done (mkDB [mkFile "f1"]) (mkFile "f1")
    { success := false, errMsg := "", data := Option.none, usage := Option.none
      rawChoices := Option.some ["抱歉，这个无法处理"] }
    "mark_only" (by decide) (by decide) (by decide)

end PixelPunk

namespace PixelPunk

/-- C10.  `RecoverPendingOnStartup(limit)` selects at most `limit` files
whose job status is `pending`; exactly the selected rows get
`ai_tagging_status = none` and `ai_tagging_tries = 0` (a fresh retry
budget), and every row outside the selected set is carried over
unmodified. -/
theorem c10_startup_recovery_resets_selected_pending (db : DBState)
    (limit : Nat) (hpos : 0 < limit) :
    (recoverPendingOnStartup db limit).2.length ≤ limit ∧
    (∀ fid ∈ (recoverPendingOnStartup db limit).2,
      ∃ f ∈ db.files, f.id = fid ∧ f.aiTaggingStatus = AIStatus.pending) ∧
    (∀ f ∈ db.files, f.id ∉ (recoverPendingOnStartup db limit).2 →
      f ∈ (recoverPendingOnStartup db limit).1.files) ∧
    (∀ f ∈ (recoverPendingOnStartup db limit).1.files,
      f.id ∈ (recoverPendingOnStartup db limit).2 →
      f.aiTaggingStatus = AIStatus.statNone ∧ f.aiTaggingTries = 0) := by
  simp only [recoverPendingOnStartup, hpos, if_true]
  set pendingIDs :=
    (db.files.filter fun f => f.aiTaggingStatus = AIStatus.pending).map (·.id)
    with hpids
  by_cases hempty : pendingIDs.take limit = []
  · simp only [hempty, if_pos]
    refine ⟨by simp, by simp, ?_, by simp⟩
    intro f hf _
    exact hf
  · simp only [hempty, if_neg, if_false]
    refine ⟨?_, ?_, ?_, ?_⟩
    · simpa using Nat.min_le_left limit pendingIDs.length
    · intro fid hfid
      have hmem : fid ∈ pendingIDs := List.take_subset limit pendingIDs hfid
      rw [hpids] at hmem
      rcases List.mem_map.mp hmem with ⟨f, hf, hfeq⟩
      rcases List.mem_filter.mp hf with ⟨hfmem, hfpend⟩
      exact ⟨f, hfmem, hfeq, by simpa using hfpend⟩
    · intro f hf hnot
      apply List.mem_map.mpr
      refine ⟨f, hf, ?_⟩
      simp [hnot]
    · intro f hf hid
      rcases List.mem_map.mp hf with ⟨f0, hf0, hf0eq⟩
      by_cases hin : f0.id ∈ pendingIDs.take limit
      · rw [if_pos hin] at hf0eq
        rw [← hf0eq]
        exact ⟨rfl, rfl⟩
      · rw [if_neg hin] at hf0eq
        rw [← hf0eq] at hid
        exact absurd hid hin

/-- C10 witness: two pending rows, one other row, limit 1. -/
theorem c10_witness :
    ((recoverPendingOnStartup
        (mkDB [{ mkFile "a" with aiTaggingStatus := AIStatus.pending },
               { mkFile "b" with aiTaggingStatus := AIStatus.pending },
               mkFile "c"]) 1).2.length ≤ 1) ∧
    aiStatusOf (recoverPendingOnStartup
        (mkDB [{ mkFile "a" with aiTaggingStatus := AIStatus.pending },
               { mkFile "b" with aiTaggingStatus := AIStatus.pending },
               mkFile "c"]) 1).1 "a" = Option.some AIStatus.statNone :=
  ⟨(c10_startup_recovery_resets_selected_pending
      (mkDB [{ mkFile "a" with aiTaggingStatus := AIStatus.pending },
             { mkFile "b" with aiTaggingStatus := AIStatus.pending },
             mkFile "c"]) 1 (by decide)).1,
   by decide⟩

end PixelPunk

namespace PixelPunk

theorem upsertAIInfo_idem (l : List AIInfoRec) (r : AIInfoRec) :
    upsertAIInfo (upsertAIInfo l r) r = upsertAIInfo l r := by
  by_cases h : l.any (fun s => s.fileID = r.fileID) = true
  · have hfirst : upsertAIInfo l r =
        l.map fun s => if s.fileID = r.fileID then r else s := by
      unfold upsertAIInfo
      rw [if_pos h]
    have hany : ((l.map fun s => if s.fileID = r.fileID then r else s).any
        fun s => s.fileID = r.fileID) = true := by
      rcases List.any_eq_true.mp h with ⟨s, hs, hpred⟩
      apply List.any_eq_true.mpr
      refine ⟨if s.fileID = r.fileID then r else s, List.mem_map_of_mem _ hs, ?_⟩
      simp only [decide_eq_true_eq] at hpred
      simp [hpred]
    rw [hfirst]
    unfold upsertAIInfo
    rw [if_pos hany, List.map_map]
    apply List.map_congr_left
    intro s _
    by_cases hs : s.fileID = r.fileID <;> simp [hs]
  · have hfirst : upsertAIInfo l r = l ++ [r] := by
      unfold upsertAIInfo
      rw [if_neg h]
    have hall : ∀ s ∈ l, ¬ s.fileID = r.fileID := by
      intro s hs hcon
      exact h (List.any_eq_true.mpr ⟨s, hs, by simp [hcon]⟩)
    have hany : ((l ++ [r]).any fun s => s.fileID = r.fileID) = true :=
      List.any_eq_true.mpr ⟨r, by simp, by simp⟩
    rw [hfirst]
    unfold upsertAIInfo
    rw [if_pos hany, List.map_append]
    congr 1
    · apply List.map_congr_left ?_ |>.trans (List.map_id l)
      intro s hs
      simp [hall s hs]
    · simp

theorem replaceFileTags_idem (rels : List TagRel) (fid : String)
    (uid : Nat) (ts : List String) :
    replaceFileTags (replaceFileTags rels fid uid ts) fid uid ts =
      replaceFileTags rels fid uid ts := by
  unfold replaceFileTags
  rw [List.filter_append, List.filter_filter, List.filter_map]
  congr 1
  · have h1 : (rels.filter fun r =>
        (decide ¬r.fileID = fid) && decide ¬r.fileID = fid) =
        rels.filter fun r => decide ¬r.fileID = fid := by
      apply List.filter_congr
      intro r _
      simp
    have h2 : (ts.filter ((fun r : TagRel => decide ¬r.fileID = fid) ∘ fun t =>
        { fileID := fid, tagID := t, userID := uid, accessLevel := ""
          source := "ai", confidence := aiDefaultConfidence })) = [] := by
      apply List.filter_eq_nil_iff.mpr
      intro t _
      simp
    rw [h2]
    simp only [List.map_nil, List.append_nil]
    exact h1

/-- C5.  Persisting an AI result for a file is idempotent: running the
persistence step (`saveFileAIInfo` UPSERT keyed by `fileID`, then the tag
replacement of `processAndSaveTags`) twice over the same provider response
yields exactly the same database rows as running it once — no duplicate
AI-metadata row and no duplicate tag-association rows. -/
theorem c5_persistence_idempotent (db : DBState) (file : FileRec)
    (result : AITaggingResult) :
    persistAIResult (persistAIResult db file result) file result =
      persistAIResult db file result := by
  unfold persistAIResult processAndSaveTags
  by_cases ht : result.tags = []
  · simp only [ht, if_pos]
    simp [upsertAIInfo_idem]
  · simp only [ht, if_neg, if_false]
    simp [upsertAIInfo_idem, replaceFileTags_idem]

end PixelPunk

namespace PixelPunk

/-- The tag relation `replaceFileTags` creates for one tag id. -/
def newTagRel (fid : String) (uid : Nat) (t : String) : TagRel :=
  { fileID := fid, tagID := t, userID := uid, accessLevel := ""
    source := "ai", confidence := aiDefaultConfidence }

theorem filter_replaceFileTags (rels : List TagRel) (fid : String) (uid : Nat)
    (ts : List String) (x : String) :
    (replaceFileTags rels fid uid ts).filter (fun r => r.fileID = x) =
      if x = fid then ts.map (newTagRel fid uid)
      else rels.filter fun r => r.fileID = x := by
  unfold replaceFileTags
  rw [List.filter_append, List.filter_filter, List.filter_map]
  by_cases hx : x = fid
  · rw [if_pos hx]
    have h1 : (rels.filter fun r =>
        decide (r.fileID = x) && decide ¬r.fileID = fid) = [] := by
      apply List.filter_eq_nil_iff.mpr
      intro r _
      by_cases hr : r.fileID = x <;> simp [hr, hx]
    have h2 : (ts.filter ((fun r : TagRel => decide (r.fileID = x)) ∘ fun t =>
        { fileID := fid, tagID := t, userID := uid, accessLevel := ""
          source := "ai", confidence := aiDefaultConfidence })) = ts := by
      apply List.filter_eq_self.mpr
      intro t _
      simp [hx]
    rw [h1, h2]
    simp [newTagRel]
  · rw [if_neg hx]
    have h1 : (rels.filter fun r =>
        decide (r.fileID = x) && decide ¬r.fileID = fid) =
        rels.filter fun r => r.fileID = x := by
      apply List.filter_congr
      intro r _
      by_cases hr : r.fileID = x
      · simp only [hr, decide_True, Bool.true_and]
        simp [hx]
      · simp [hr]
    have h2 : (ts.filter ((fun r : TagRel => decide (r.fileID = x)) ∘ fun t =>
        { fileID := fid, tagID := t, userID := uid, accessLevel := ""
          source := "ai", confidence := aiDefaultConfidence })) = [] := by
      apply List.filter_eq_nil_iff.mpr
      intro t _
      simp [Ne.symm hx]
    rw [h1, h2]
    simp

theorem tagsOf_processAndSaveTags (db : DBState) (file : FileRec)
    (ts : List String) (x : String) :
    tagsOf (processAndSaveTags db file ts) x =
      if ts = [] then tagsOf db x
      else if x = file.id then ts.map (newTagRel file.id file.userID)
      else tagsOf db x := by
  unfold processAndSaveTags
  by_cases ht : ts = []
  · simp [ht]
  · rw [if_neg ht, if_neg ht]
    show (replaceFileTags db.tagRels file.id file.userID ts).filter
        (fun r => r.fileID = x) = _
    rw [filter_replaceFileTags]
    rfl

/-- Every file-table operation leaves `tagsOf` unchanged. -/
theorem tagsOf_markFileForDeletion (db : DBState) (fid x) :
    tagsOf (markFileForDeletion db fid) x = tagsOf db x := rfl

theorem tagsOf_markFileForReview (db : DBState) (fid r x) :
    tagsOf (markFileForReview db fid r) x = tagsOf db x := rfl

theorem tagsOf_updateFileNSFWStatusDB (db : DBState) (fid b x) :
    tagsOf (updateFileNSFWStatusDB db fid b) x = tagsOf db x := rfl

theorem tagsOf_updateFileStatusDB (db : DBState) (fid st x) :
    tagsOf (updateFileStatusDB db fid st) x = tagsOf db x := rfl

theorem tagsOf_setRecommended (db : DBState) (fid x) :
    tagsOf (setRecommended db fid) x = tagsOf db x := rfl

theorem tagsOf_setAIStatusRaw (db : DBState) (fid st x) :
    tagsOf (setAIStatusRaw db fid st) x = tagsOf db x := rfl

theorem tagsOf_addVector (db : DBState) (fid d x) :
    tagsOf (addVector db fid d) x = tagsOf db x := rfl

theorem tagsOf_addUsageLog (db : DBState) (fid x) :
    tagsOf (addUsageLog db fid) x = tagsOf db x := rfl

theorem tagsOf_setFileDescription (db : DBState) (fid d x) :
    tagsOf (setFileDescription db fid d) x = tagsOf db x := rfl

end PixelPunk

namespace PixelPunk

theorem fileStatusOf_withAIInfos (db : DBState) (X : List AIInfoRec) (x) :
    fileStatusOf { db with aiInfos := X } x = fileStatusOf db x := rfl

theorem aiStatusOf_withAIInfos (db : DBState) (X : List AIInfoRec) (x) :
    aiStatusOf { db with aiInfos := X } x = aiStatusOf db x := rfl

theorem triesOf_withAIInfos (db : DBState) (X : List AIInfoRec) (x) :
    triesOf { db with aiInfos := X } x = triesOf db x := rfl

theorem hasFile_withAIInfos (db : DBState) (X : List AIInfoRec) (x) :
    hasFile { db with aiInfos := X } x = hasFile db x := rfl

theorem tagsOf_withAIInfos (db : DBState) (X : List AIInfoRec) (x) :
    tagsOf { db with aiInfos := X } x = tagsOf db x := rfl

/-- C1 counterexample.  The claim predicts
`Decide(score=0.9, threshold=0.6, mode=auto_delete) = delete` and
`Decide(score=0.3, threshold=0.6, mode=auto_delete) = publish`.  The code
never consults the score or the threshold: with `nsfw_score = 0.9` but
`is_nsfw = false` the file is published (status stays `"active"`, tags are
saved), and with `nsfw_score = 0.3` but `is_nsfw = true` the file is
soft-deleted. -/
theorem c1_counterexample :
    fileStatusOf (processAIResponse (mkDB [mkFile "f1"]) (mkFile "f1")
        (Option.some (mkSuccessResp (mkResult false (9/10) ["cat"])))
        true "auto_delete").1 "f1" = Option.some "active" ∧
    ¬ fileStatusOf (processAIResponse (mkDB [mkFile "f1"]) (mkFile "f1")
        (Option.some (mkSuccessResp (mkResult false (9/10) ["cat"])))
        true "auto_delete").1 "f1" = Option.some "pending_deletion" ∧
    fileStatusOf (processAIResponse (mkDB [mkFile "f1"]) (mkFile "f1")
        (Option.some (mkSuccessResp (mkResult true (3/10) ["cat"])))
        true "auto_delete").1 "f1" = Option.some "pending_deletion" := by
  decide

/-- C1 amended.  Under `auto_delete` with content detection enabled, the
executor's decision is driven by the provider's `is_nsfw` flag alone (the
numeric score and the admin threshold are never consulted): when the flag
is set the file is soft-deleted, and when it is clear the file is
published unchanged with the job marked `done`. -/
theorem c1_auto_delete_decision_by_flag (db : DBState) (file : FileRec)
    (resp : AIFileResponse) (result : AITaggingResult)
    (hmem : hasFile db file.id = true)
    (hsucc : resp.success = true)
    (hdata : resp.data = Option.some result) :
    (result.contentSafety.isNSFW = true →
      fileStatusOf (processAIResponse db file (Option.some resp) true
          "auto_delete").1 file.id = Option.some "pending_deletion") ∧
    (result.contentSafety.isNSFW = false →
      fileStatusOf (processAIResponse db file (Option.some resp) true
          "auto_delete").1 file.id = fileStatusOf db file.id ∧
      aiStatusOf (processAIResponse db file (Option.some resp) true
          "auto_delete").1 file.id = Option.some AIStatus.done) := by
  have hmem' : (findFile db.files file.id).isSome = true := hmem
  rcases Option.isSome_iff_exists.mp hmem' with ⟨f0, hf0⟩
  have hproc : processAIResponse db file (Option.some resp) true
      "auto_delete" = processAISuccess db file resp result true
      "auto_delete" := by
    simp [processAIResponse, hsucc, hdata]
  rw [hproc]
  unfold processAISuccess
  constructor
  · intro hN
    simp only [apply_ite AITaggingResult.contentSafety,
      apply_ite ContentSafety.isNSFW, apply_ite AITaggingResult.tags,
      apply_ite AITaggingResult.description, ite_self, hN, not_true,
      Bool.true_and, eq_self_iff_true, if_true, Bool.false_eq_true,
      false_or, if_false, fileStatusOf_ite, fileStatusOf_addUsageLog,
      fileStatusOf_addVector, fileStatusOf_updateFileStatusDB,
      fileStatusOf_updateFileNSFWStatusDB, fileStatusOf_markFileForDeletion,
      fileStatusOf_markFileForReview, fileStatusOf_setRecommended,
      fileStatusOf_processAndSaveTags, fileStatusOf_withAIInfos]
    simp [fileStatusOf, hf0]
  · intro hN
    simp only [apply_ite AITaggingResult.contentSafety,
      apply_ite ContentSafety.isNSFW, apply_ite AITaggingResult.tags,
      apply_ite AITaggingResult.description, ite_self, hN, not_true,
      Bool.true_and, eq_self_iff_true, if_true, Bool.false_eq_true,
      false_or, if_false, fileStatusOf_ite, fileStatusOf_addUsageLog,
      fileStatusOf_addVector, fileStatusOf_updateFileStatusDB,
      fileStatusOf_updateFileNSFWStatusDB, fileStatusOf_markFileForDeletion,
      fileStatusOf_markFileForReview, fileStatusOf_setRecommended,
      fileStatusOf_processAndSaveTags, fileStatusOf_withAIInfos,
      aiStatusOf_ite, aiStatusOf_addUsageLog, aiStatusOf_addVector,
      aiStatusOf_updateFileStatusDB, aiStatusOf_updateFileNSFWStatusDB,
      aiStatusOf_markFileForDeletion, aiStatusOf_markFileForReview,
      aiStatusOf_setRecommended, aiStatusOf_processAndSaveTags,
      aiStatusOf_withAIInfos]
    constructor
    · simp [fileStatusOf, hf0]
    · simp [aiStatusOf, hf0]

/-- C1 witness: concrete runs exercising both directions of the amended
theorem. -/
theorem c1_witness :
    fileStatusOf (processAIResponse (mkDB [mkFile "w1"]) (mkFile "w1")
        (Option.some (mkSuccessResp (mkResult true (1/2) ["dog"])))
        true "auto_delete").1 "w1" = Option.some "pending_deletion" ∧
    fileStatusOf (processAIResponse (mkDB [mkFile "w1"]) (mkFile "w1")
        (Option.some (mkSuccessResp (mkResult false (1/2) ["dog"])))
        true "auto_delete").1 "w1" = fileStatusOf (mkDB [mkFile "w1"]) "w1" :=
  ⟨(c1_auto_delete_decision_by_flag (mkDB [mkFile "w1"]) (mkFile "w1")
      (mkSuccessResp (mkResult true (1/2) ["dog"]))
      (mkResult true (1/2) ["dog"]) (by decide) rfl rfl).1 rfl,
   ((c1_auto_delete_decision_by_flag (mkDB [mkFile "w1"]) (mkFile "w1")
      (mkSuccessResp (mkResult false (1/2) ["dog"]))
      (mkResult false (1/2) ["dog"]) (by decide) rfl rfl).2 rfl).1⟩

end PixelPunk

namespace PixelPunk

/-- C7 counterexample.  A sensitive result (`is_nsfw = true`, tags
`["cat"]`) under `auto_delete`: the run persists no tag association for
the file, while the very same response under the default `mark_only` mode
does save the tags — so tags are not generated-and-saved for audit in the
`auto_delete` disposition, contradicting the claim. -/
theorem c7_counterexample :
    tagsOf (processAIResponse (mkDB [mkFile "f1"]) (mkFile "f1")
        (Option.some (mkSuccessResp (mkResult true (9/10) ["cat"])))
        true "auto_delete").1 "f1" = [] ∧
    tagsOf (processAIResponse (mkDB [mkFile "f1"]) (mkFile "f1")
        (Option.some (mkSuccessResp (mkResult true (9/10) ["cat"])))
        true "mark_only").1 "f1" ≠ [] := by
  decide

/-- C7 amended.  With content detection enabled and a sensitive result,
tags are persisted under `mark_only` and `pending_review`, but under
`auto_delete` the file is only marked for deletion and its tag
associations are left exactly as they were — no audit tags are saved. -/
theorem c7_auto_delete_saves_no_tags (db : DBState) (file : FileRec)
    (resp : AIFileResponse) (result : AITaggingResult)
    (hsucc : resp.success = true)
    (hdata : resp.data = Option.some result)
    (hN : result.contentSafety.isNSFW = true)
    (htags : result.tags ≠ []) :
    tagsOf (processAIResponse db file (Option.some resp) true
        "auto_delete").1 file.id = tagsOf db file.id ∧
    tagsOf (processAIResponse db file (Option.some resp) true
        "mark_only").1 file.id =
      result.tags.map (newTagRel file.id file.userID) ∧
    tagsOf (processAIResponse db file (Option.some resp) true
        "pending_review").1 file.id =
      result.tags.map (newTagRel file.id file.userID) := by
  have hproc : ∀ handling, processAIResponse db file (Option.some resp) true
      handling = processAISuccess db file resp result true handling := by
    intro handling
    simp [processAIResponse, hsucc, hdata]
  rw [hproc, hproc, hproc]
  unfold processAISuccess
  have hmo1 : ("mark_only" : String) ≠ "auto_delete" := by decide
  have hmo2 : ("mark_only" : String) ≠ "pending_review" := by decide
  have hpr1 : ("pending_review" : String) ≠ "auto_delete" := by decide
  refine ⟨?_, ?_, ?_⟩ <;>
    simp [apply_ite AITaggingResult.contentSafety,
      apply_ite ContentSafety.isNSFW, apply_ite AITaggingResult.tags,
      apply_ite AITaggingResult.description, ite_self, hN, hmo1, hmo2, hpr1,
      htags, tagsOf_ite, tagsOf_addUsageLog, tagsOf_addVector,
      tagsOf_updateFileStatusDB, tagsOf_updateFileNSFWStatusDB,
      tagsOf_markFileForDeletion, tagsOf_markFileForReview,
      tagsOf_setRecommended, tagsOf_withAIInfos, tagsOf_processAndSaveTags,
      tagsOf_setFileDescription]

/-- C7 witness: a concrete sensitive run exercising the amended theorem. -/
theorem c7_witness :
    tagsOf (processAIResponse (mkDB [mkFile "w7"]) (mkFile "w7")
        (Option.some (mkSuccessResp (mkResult true (4/5) ["cat", "dog"])))
        true "auto_delete").1 "w7" = tagsOf (mkDB [mkFile "w7"]) "w7" :=
  (c7_auto_delete_saves_no_tags (mkDB [mkFile "w7"]) (mkFile "w7")
    (mkSuccessResp (mkResult true (4/5) ["cat", "dog"]))
    (mkResult true (4/5) ["cat", "dog"]) rfl rfl rfl (by decide)).1

end PixelPunk

namespace PixelPunk

/-- C3 counterexample.  A provider failure (classification call errors out)
with AI analysis enabled: `AiImageTaggingAndSaveWithBase64` returns `nil`
(no retryable error), marks the job `skipped` — a terminal, non-retried
status — and leaves the tries counter untouched, contradicting the claim
on every count. -/
theorem c3_counterexample :
    (aiImageTaggingAndSave
        { contentDetectionEnabled := true
          sensitiveContentHandling := "mark_only", aiAnalysisEnabled := true }
        (mkDB [mkFile "f1"]) (mkFile "f1")
        (Except.error "connection refused") (Except.error "unused")).2 =
      Option.none ∧
    aiStatusOf (aiImageTaggingAndSave
        { contentDetectionEnabled := true
          sensitiveContentHandling := "mark_only", aiAnalysisEnabled := true }
        (mkDB [mkFile "f1"]) (mkFile "f1")
        (Except.error "connection refused") (Except.error "unused")).1 "f1" =
      Option.some AIStatus.skipped ∧
    triesOf (aiImageTaggingAndSave
        { contentDetectionEnabled := true
          sensitiveContentHandling := "mark_only", aiAnalysisEnabled := true }
        (mkDB [mkFile "f1"]) (mkFile "f1")
        (Except.error "connection refused") (Except.error "unused")).1 "f1" =
      Option.some 0 := by
  decide

/-- C3 amended.  On a provider failure of either external call
(classification or tagging), the executor marks the job `skipped` — a
terminal status — returns `nil` rather than an error, and does not touch
the tries counter; the job is not retried. -/
theorem c3_provider_failure_marks_skipped (settings : TaggingSettings)
    (db : DBState) (file : FileRec) (msg : String)
    (taggingCall : Except String AIFileResponse)
    (hen : settings.aiAnalysisEnabled = true) :
    ((aiImageTaggingAndSave settings db file (Except.error msg)
        taggingCall).2 = Option.none ∧
     aiStatusOf (aiImageTaggingAndSave settings db file (Except.error msg)
        taggingCall).1 file.id =
       (aiStatusOf db file.id).map (fun _ => AIStatus.skipped) ∧
     triesOf (aiImageTaggingAndSave settings db file (Except.error msg)
        taggingCall).1 file.id = triesOf db file.id) ∧
    ((aiImageTaggingAndSave settings db file (Except.ok ())
        (Except.error msg)).2 = Option.none ∧
     aiStatusOf (aiImageTaggingAndSave settings db file (Except.ok ())
        (Except.error msg)).1 file.id =
       (aiStatusOf db file.id).map (fun _ => AIStatus.skipped) ∧
     triesOf (aiImageTaggingAndSave settings db file (Except.ok ())
        (Except.error msg)).1 file.id = triesOf db file.id) := by
  simp only [aiImageTaggingAndSave, hen, Bool.true_eq_false, if_false,
    aiStatusOf_setAIStatusRaw, triesOf_setAIStatusRaw, eq_self_iff_true,
    if_true]
  exact ⟨⟨trivial, trivial, trivial⟩, ⟨trivial, trivial, trivial⟩⟩

/-- C3 witness: concrete provider failures exercising the amended
theorem. -/
theorem c3_witness :
    aiStatusOf (aiImageTaggingAndSave
        { contentDetectionEnabled := false
          sensitiveContentHandling := "mark_only", aiAnalysisEnabled := true }
        (mkDB [mkFile "w3"]) (mkFile "w3") (Except.error "rate limit")
        (Except.error "unused")).1 "w3" =
      (aiStatusOf (mkDB [mkFile "w3"]) "w3").map (fun _ => AIStatus.skipped) :=
  ((c3_provider_failure_marks_skipped
    { contentDetectionEnabled := false
      sensitiveContentHandling := "mark_only", aiAnalysisEnabled := true }
    (mkDB [mkFile "w3"]) (mkFile "w3") "rate limit"
    (Except.error "unused") rfl).1).2.1

end PixelPunk

namespace PixelPunk

theorem aiStatusOf_markPendingWithHeartbeat (db : DBState) (fid now x) :
    aiStatusOf (markPendingWithHeartbeat db fid now) x =
      if x = fid then (aiStatusOf db x).map (fun _ => AIStatus.pending)
      else aiStatusOf db x := by
  simp only [aiStatusOf, markPendingWithHeartbeat]
  apply selOf_updateWhere_set <;> exact fun f => rfl

/-- C2 counterexample.  With the service globally disabled (no instance
even after re-init) `AddFileToQueue` returns without writing anything: the
job is left in its prior status `none`, not marked `skipped`.  And with
the queue rejecting the id while the service is paused, there is no
synchronous fallback: the job is merely left pending. -/
theorem c2_counterexample :
    (addFileToQueue false true false false (mkDB [mkFile "f1"]) "f1" 5 =
      (mkDB [mkFile "f1"], QueueAction.noService)) ∧
    aiStatusOf (addFileToQueue false true false false
        (mkDB [mkFile "f1"]) "f1" 5).1 "f1" ≠ Option.some AIStatus.skipped ∧
    (addFileToQueue true true true true (mkDB [mkFile "f1"]) "f1" 5).2 ≠
      QueueAction.syncProcessed ∧
    (addFileToQueue true true true true (mkDB [mkFile "f1"]) "f1" 5).2 =
      QueueAction.leftPending := by
  decide

/-- C2 amended.  When a service instance exists, `AddFileToQueue` first
marks the job `pending` (with a heartbeat); a rejected enqueue falls back
to direct synchronous execution only when the service is not paused, and
when paused the job is left pending for the resume sweep.  When the
service is globally disabled no instance exists and the call writes
nothing at all — in particular the job is not marked `skipped`. -/
theorem c2_enqueue_fallback_matrix (db : DBState) (fileID : String)
    (now : Nat) (hasQ rejected paused : Bool) :
    (addFileToQueue false hasQ paused rejected db fileID now =
      (db, QueueAction.noService)) ∧
    (aiStatusOf (addFileToQueue true hasQ paused rejected db fileID now).1
        fileID = (aiStatusOf db fileID).map (fun _ => AIStatus.pending)) ∧
    (rejected = true → paused = false →
      (addFileToQueue true hasQ paused rejected db fileID now).2 =
        QueueAction.syncProcessed) ∧
    (rejected = true → paused = true →
      (addFileToQueue true hasQ paused rejected db fileID now).2 =
        QueueAction.leftPending) := by
  refine ⟨rfl, ?_, ?_, ?_⟩
  · cases hasQ <;> cases rejected <;> cases paused <;>
      simp [addFileToQueue, aiStatusOf_markPendingWithHeartbeat]
  · intro hr hp
    subst hr; subst hp
    cases hasQ <;> simp [addFileToQueue]
  · intro hr hp
    subst hr; subst hp
    cases hasQ <;> simp [addFileToQueue]

/-- C2 witness: a queue-full rejection on a running, unpaused service
falls back to synchronous execution. -/
theorem c2_witness :
    aiStatusOf (addFileToQueue true true false true
        (mkDB [mkFile "w2"]) "w2" 9).1 "w2" =
      (aiStatusOf (mkDB [mkFile "w2"]) "w2").map (fun _ => AIStatus.pending) ∧
    (addFileToQueue true true false true (mkDB [mkFile "w2"]) "w2" 9).2 =
      QueueAction.syncProcessed :=
  ⟨(c2_enqueue_fallback_matrix (mkDB [mkFile "w2"]) "w2" 9 true true
      false).2.1,
   (c2_enqueue_fallback_matrix (mkDB [mkFile "w2"]) "w2" 9 true true
      false).2.2.1 rfl rfl⟩

end PixelPunk

namespace PixelPunk

/-- C8 counterexample.  A tick on which nothing was reclaimed, with the
service not paused: the bulk enqueue sweep does not run (the code gates
the sweep on `count > 0`, not merely on not-paused as the claim states). -/
theorem c8_counterexample :
    (maintenanceTick (mkDB [{ mkFile "f1" with
        aiTaggingStatus := AIStatus.done, heartbeat := 0 }]) 1000 5 false).2 =
      false := by
  decide

/-- C8 amended.  The stuck-job loop runs at a fixed 60-second interval; on
every tick it resets the jobs still pending/processing whose heartbeat is
older than the threshold, and the bulk enqueue-all-pending sweep then runs
exactly when at least one job was reclaimed and the service is not paused
— so a reclaimed stuck job is re-enqueued within one maintenance tick,
but an idle tick does not sweep. -/
theorem c8_tick_resets_and_sweeps_on_reclaim (db : DBState)
    (now thresholdMinutes : Nat) (paused : Bool) :
    maintenanceIntervalSeconds = 60 ∧
    ((maintenanceTick db now thresholdMinutes paused).2 = true ↔
      0 < (resetStuckFiles db now thresholdMinutes).2 ∧ paused = false) ∧
    (∀ f ∈ db.files,
      (f.aiTaggingStatus = AIStatus.pending ∨
       f.aiTaggingStatus = AIStatus.processing) →
      f.heartbeat + thresholdMinutes * 60 < now →
      { f with aiTaggingStatus := AIStatus.pending } ∈
        (maintenanceTick db now thresholdMinutes paused).1.files) := by
  refine ⟨rfl, ?_, ?_⟩
  · unfold maintenanceTick
    by_cases h : 0 < (resetStuckFiles db now thresholdMinutes).2 ∧
        paused = false
    · simp [h]
    · simp only [h, if_false]
      simp [h]
  · intro f hf hstat hold
    have h1 : (maintenanceTick db now thresholdMinutes paused).1 =
        (resetStuckFiles db now thresholdMinutes).1 := by
      unfold maintenanceTick
      by_cases h : 0 < (resetStuckFiles db now thresholdMinutes).2 ∧
          paused = false <;> simp [h]
    rw [h1]
    unfold resetStuckFiles
    simp only []
    apply List.mem_map.mpr
    exact ⟨f, hf, by rw [if_pos ⟨hstat, hold⟩]⟩

/-- C8 witness: a processing job with a stale heartbeat is reset to
pending by the tick. -/
theorem c8_witness :
    maintenanceIntervalSeconds = 60 ∧
    { mkFile "s" with
        aiTaggingStatus := AIStatus.pending, heartbeat := 0 } ∈
      (maintenanceTick (mkDB [{ mkFile "s" with
          aiTaggingStatus := AIStatus.processing, heartbeat := 0 }])
        100 1 false).1.files :=
  ⟨(c8_tick_resets_and_sweeps_on_reclaim (mkDB [{ mkFile "s" with
      aiTaggingStatus := AIStatus.processing, heartbeat := 0 }])
      100 1 false).1,
   (c8_tick_resets_and_sweeps_on_reclaim (mkDB [{ mkFile "s" with
      aiTaggingStatus := AIStatus.processing, heartbeat := 0 }])
      100 1 false).2.2
     { mkFile "s" with aiTaggingStatus := AIStatus.processing, heartbeat := 0 }
     (by decide) (Or.inr rfl) (by decide)⟩

end PixelPunk

namespace PixelPunk

theorem find?_map_upsertFn_other (l : List AIInfoRec) (r : AIInfoRec)
    (x : String) (hx : ¬ x = r.fileID) :
    ((l.map fun s => if s.fileID = r.fileID then r else s).find?
        fun s => s.fileID = x) = l.find? fun s => s.fileID = x := by
  induction l with
  | nil => rfl
  | cons a as ih =>
      by_cases ha : a.fileID = r.fileID
      · rw [List.map_cons, if_pos ha, List.find?_cons_of_neg _ (by
          simp only [decide_eq_true_eq]
          intro hc
          exact hx (hc ▸ rfl)),
          List.find?_cons_of_neg _ (by
            simp only [decide_eq_true_eq]
            intro hc
            exact hx ((ha ▸ hc : r.fileID = x) ▸ rfl))]
        exact ih
      · rw [List.map_cons, if_neg ha]
        by_cases hax : a.fileID = x
        · rw [List.find?_cons_of_pos _ (by simp [hax]),
              List.find?_cons_of_pos _ (by simp [hax])]
        · rw [List.find?_cons_of_neg _ (by simp [hax]),
              List.find?_cons_of_neg _ (by simp [hax])]
          exact ih

theorem find?_map_upsertFn_self (l : List AIInfoRec) (r : AIInfoRec)
    (h : l.any (fun s => s.fileID = r.fileID) = true) :
    ((l.map fun s => if s.fileID = r.fileID then r else s).find?
        fun s => s.fileID = r.fileID) = Option.some r := by
  induction l with
  | nil => simp at h
  | cons a as ih =>
      by_cases ha : a.fileID = r.fileID
      · rw [List.map_cons, if_pos ha, List.find?_cons_of_pos _ (by simp)]
      · rw [List.map_cons, if_neg ha, List.find?_cons_of_neg _ (by simp [ha])]
        apply ih
        rcases List.any_eq_true.mp h with ⟨s, hs, hps⟩
        rcases List.mem_cons.mp hs with hsa | hsas
        · have hps' : s.fileID = r.fileID := by simpa using hps
          exact absurd (hsa ▸ hps') ha
        · exact List.any_eq_true.mpr ⟨s, hsas, hps⟩

theorem find?_append_single_self (l : List AIInfoRec) (r : AIInfoRec)
    (h : ∀ s ∈ l, ¬ s.fileID = r.fileID) :
    ((l ++ [r]).find? fun s => s.fileID = r.fileID) = Option.some r := by
  induction l with
  | nil => simp
  | cons a as ih =>
      rw [List.cons_append,
        List.find?_cons_of_neg _ (by simp [h a (List.mem_cons_self a as)])]
      exact ih fun s hs => h s (List.mem_cons_of_mem a hs)

theorem find?_append_single_other (l : List AIInfoRec) (r : AIInfoRec)
    (x : String) (hx : ¬ x = r.fileID) :
    ((l ++ [r]).find? fun s => s.fileID = x) = l.find? fun s => s.fileID = x := by
  induction l with
  | nil =>
      simp only [List.nil_append, List.find?_nil]
      rw [List.find?_cons_of_neg _ (by
        simp only [decide_eq_true_eq]
        intro hc
        exact hx (hc ▸ rfl)), List.find?_nil]
  | cons a as ih =>
      by_cases hax : a.fileID = x
      · rw [List.cons_append, List.find?_cons_of_pos _ (by simp [hax]),
            List.find?_cons_of_pos _ (by simp [hax])]
      · rw [List.cons_append, List.find?_cons_of_neg _ (by simp [hax]),
            List.find?_cons_of_neg _ (by simp [hax])]
        exact ih

theorem find?_upsertAIInfo (l : List AIInfoRec) (r : AIInfoRec) (x : String) :
    ((upsertAIInfo l r).find? fun s => s.fileID = x) =
      if x = r.fileID then Option.some r
      else l.find? fun s => s.fileID = x := by
  by_cases h : l.any (fun s => s.fileID = r.fileID) = true
  · have hfirst : upsertAIInfo l r =
        l.map fun s => if s.fileID = r.fileID then r else s := by
      unfold upsertAIInfo
      rw [if_pos h]
    rw [hfirst]
    by_cases hx : x = r.fileID
    · rw [if_pos hx, hx]
      exact find?_map_upsertFn_self l r h
    · rw [if_neg hx]
      exact find?_map_upsertFn_other l r x hx
  · have hfirst : upsertAIInfo l r = l ++ [r] := by
      unfold upsertAIInfo
      rw [if_neg h]
    have hall : ∀ s ∈ l, ¬ s.fileID = r.fileID := by
      intro s hs hcon
      exact h (List.any_eq_true.mpr ⟨s, hs, by simp [hcon]⟩)
    rw [hfirst]
    by_cases hx : x = r.fileID
    · rw [if_pos hx, hx]
      exact find?_append_single_self l r hall
    · rw [if_neg hx]
      exact find?_append_single_other l r x hx

theorem aiInfoOf_withUpsert (db : DBState) (r : AIInfoRec) (x : String) :
    aiInfoOf { db with aiInfos := upsertAIInfo db.aiInfos r } x =
      if x = r.fileID then Option.some r else aiInfoOf db x := by
  simp only [aiInfoOf]
  exact find?_upsertAIInfo db.aiInfos r x

end PixelPunk

namespace PixelPunk

theorem aiStatusOf_setDupDone (db : DBState) (fid catID catSource x) :
    aiStatusOf (setDupDone db fid catID catSource) x =
      if x = fid then (aiStatusOf db x).map (fun _ => AIStatus.done)
      else aiStatusOf db x := by
  simp only [aiStatusOf, setDupDone]
  apply selOf_updateWhere_set
  · intro f
    cases catID <;> rfl
  · intro f
    cases catID <;> rfl

theorem hasFile_setDupDone (db : DBState) (fid catID catSource x) :
    hasFile (setDupDone db fid catID catSource) x = hasFile db x := by
  apply hasFile_updateWhere
  intro f
  cases catID <;> rfl

theorem tagsOf_setDupDone (db : DBState) (fid catID catSource x) :
    tagsOf (setDupDone db fid catID catSource) x = tagsOf db x := rfl

theorem aiInfoOf_setDupDone (db : DBState) (fid catID catSource x) :
    aiInfoOf (setDupDone db fid catID catSource) x = aiInfoOf db x := rfl

theorem aiInfoOf_setFileDescription (db : DBState) (fid d x) :
    aiInfoOf (setFileDescription db fid d) x = aiInfoOf db x := rfl

theorem hasFile_ite (c : Prop) [Decidable c] (a b : DBState) (x) :
    hasFile (if c then a else b) x =
      if c then hasFile a x else hasFile b x := by
  split_ifs <;> rfl

theorem aiInfoOf_ite (c : Prop) [Decidable c] (a b : DBState) (x) :
    aiInfoOf (if c then a else b) x =
      if c then aiInfoOf a x else aiInfoOf b x := by
  split_ifs <;> rfl

theorem aiStatusOf_withTagRels (db : DBState) (X : List TagRel) (x) :
    aiStatusOf { db with tagRels := X } x = aiStatusOf db x := rfl

theorem hasFile_withTagRels (db : DBState) (X : List TagRel) (x) :
    hasFile { db with tagRels := X } x = hasFile db x := rfl

theorem aiInfoOf_withTagRels (db : DBState) (X : List TagRel) (x) :
    aiInfoOf { db with tagRels := X } x = aiInfoOf db x := rfl

theorem tagsOf_withTagRels (db : DBState) (X : List TagRel) (x) :
    tagsOf { db with tagRels := X } x = X.filter fun r => r.fileID = x := rfl

theorem tagsOf_setFileDescriptionP (db : DBState) (fid d x) :
    tagsOf (setFileDescription db fid d) x = tagsOf db x := rfl

/-- The value of `tagsOf` after the tag-copy append of `propagateToOne`. -/
theorem tagsOf_copyAppend (db : DBState) (oid did x : String) :
    ((db.tagRels ++
        (db.tagRels.filter fun r => r.fileID = oid).map
          (retargetRel did)).filter
      fun r => r.fileID = x) =
      if x = did then
        tagsOf db x ++ (tagsOf db oid).map (retargetRel did)
      else tagsOf db x := by
  rw [List.filter_append, List.filter_map]
  by_cases hx : x = did
  · rw [if_pos hx]
    have h2 : ((db.tagRels.filter fun r => r.fileID = oid).filter
        ((fun r : TagRel => decide (r.fileID = x)) ∘ retargetRel did)) =
        db.tagRels.filter fun r => r.fileID = oid := by
      apply List.filter_eq_self.mpr
      intro r _
      simp [retargetRel, hx]
    rw [h2]
    rfl
  · rw [if_neg hx]
    have h2 : ((db.tagRels.filter fun r => r.fileID = oid).filter
        ((fun r : TagRel => decide (r.fileID = x)) ∘ retargetRel did)) = [] := by
      apply List.filter_eq_nil_iff.mpr
      intro r _
      simp only [Function.comp_apply, retargetRel, decide_eq_true_eq]
      intro h
      exact hx h.symm
    rw [h2]
    simp only [List.map_nil, List.append_nil]
    rfl

end PixelPunk

namespace PixelPunk

theorem tagRels_setFileDescription (db : DBState) (fid d) :
    (setFileDescription db fid d).tagRels = db.tagRels := rfl

theorem aiStatusOf_propagateToOne (orig : FileRec) (origAI : Option AIInfoRec)
    (oid : String) (acc : DBState) (dup : FileRec) (x : String) :
    aiStatusOf (propagateToOne orig origAI oid acc dup) x =
      if x = dup.id then (aiStatusOf acc x).map (fun _ => AIStatus.done)
      else aiStatusOf acc x := by
  unfold propagateToOne
  cases origAI with
  | none =>
      simp only [aiStatusOf_setDupDone, aiStatusOf_ite, aiStatusOf_withTagRels,
        ite_self]
  | some ai =>
      simp only [aiStatusOf_setDupDone, aiStatusOf_ite, aiStatusOf_withTagRels,
        aiStatusOf_setFileDescription, aiStatusOf_withAIInfos, ite_self]

theorem hasFile_propagateToOne (orig : FileRec) (origAI : Option AIInfoRec)
    (oid : String) (acc : DBState) (dup : FileRec) (x : String) :
    hasFile (propagateToOne orig origAI oid acc dup) x = hasFile acc x := by
  unfold propagateToOne
  cases origAI with
  | none =>
      simp only [hasFile_setDupDone, hasFile_ite, hasFile_withTagRels, ite_self]
  | some ai =>
      simp only [hasFile_setDupDone, hasFile_ite, hasFile_withTagRels,
        hasFile_setFileDescription, hasFile_withAIInfos, ite_self]

theorem aiInfoOf_propagateToOne (orig : FileRec) (origAI : Option AIInfoRec)
    (oid : String) (acc : DBState) (dup : FileRec) (x : String) :
    aiInfoOf (propagateToOne orig origAI oid acc dup) x =
      (match origAI with
       | Option.some ai =>
           if x = dup.id then Option.some { ai with fileID := dup.id }
           else aiInfoOf acc x
       | Option.none => aiInfoOf acc x) := by
  unfold propagateToOne
  cases origAI with
  | none =>
      simp only [aiInfoOf_setDupDone, aiInfoOf_ite, aiInfoOf_withTagRels,
        ite_self]
  | some ai =>
      simp only [aiInfoOf_setDupDone, aiInfoOf_ite, aiInfoOf_withTagRels,
        aiInfoOf_setFileDescription, ite_self, aiInfoOf_withUpsert]

theorem tagsOf_congr {d1 d2 : DBState} (h : d1.tagRels = d2.tagRels)
    (y : String) : tagsOf d1 y = tagsOf d2 y := by
  unfold tagsOf
  rw [h]

/-- The value of `tagsOf` across the tag-copy-then-mark-done tail of `propagateToOne`. -/
theorem tagsOf_copyAndDone (db : DBState) (oid : String) (dup : FileRec)
    (catID : Option Nat) (catSource : String) (x : String) :
    tagsOf (setDupDone
      (if db.tagRels.filter (fun r => r.fileID = dup.id) = [] then
        { db with
          tagRels := db.tagRels ++
            (db.tagRels.filter (fun r => r.fileID = oid)).map
              (retargetRel dup.id) }
      else db) dup.id catID catSource) x =
      if x = dup.id ∧ tagsOf db dup.id = [] then
        (tagsOf db oid).map (retargetRel dup.id)
      else tagsOf db x := by
  by_cases hc : db.tagRels.filter (fun r => r.fileID = dup.id) = []
  · rw [if_pos hc]
    simp only [tagsOf_setDupDone, tagsOf_withTagRels, tagsOf_copyAppend]
    by_cases hx : x = dup.id
    · rw [if_pos hx, if_pos ⟨hx, hc⟩, hx,
        show tagsOf db dup.id = [] from hc]
      simp
    · rw [if_neg hx, if_neg (fun h => hx h.1)]
  · rw [if_neg hc]
    have hc2 : ¬ tagsOf db dup.id = [] := hc
    rw [tagsOf_setDupDone,
      if_neg (fun h : x = dup.id ∧ tagsOf db dup.id = [] => hc2 h.2)]

theorem tagsOf_propagateToOne (orig : FileRec) (origAI : Option AIInfoRec)
    (oid : String) (acc : DBState) (dup : FileRec) (x : String) :
    tagsOf (propagateToOne orig origAI oid acc dup) x =
      if x = dup.id ∧ tagsOf acc dup.id = [] then
        (tagsOf acc oid).map (retargetRel dup.id)
      else tagsOf acc x := by
  have key : ∀ d : DBState, d.tagRels = acc.tagRels →
      tagsOf (setDupDone
        (if d.tagRels.filter (fun r => r.fileID = dup.id) = [] then
          { d with
            tagRels := d.tagRels ++
              (d.tagRels.filter (fun r => r.fileID = oid)).map
                (retargetRel dup.id) }
        else d) dup.id orig.categoryID orig.categorySource) x =
      (if x = dup.id ∧ tagsOf acc dup.id = [] then
        (tagsOf acc oid).map (retargetRel dup.id)
      else tagsOf acc x) := by
    intro d hd
    have e1 : ∀ y, tagsOf d y = tagsOf acc y := fun y => tagsOf_congr hd y
    rw [tagsOf_copyAndDone d oid dup orig.categoryID orig.categorySource x]
    simp only [e1]
  unfold propagateToOne
  cases origAI with
  | none => exact key acc rfl
  | some ai =>
      dsimp only
      apply key
      by_cases hdesc : (({ ai with fileID := dup.id } : AIInfoRec).description ≠ "")
      · rw [if_pos hdesc]
        rfl
      · rw [if_neg hdesc]

end PixelPunk

namespace PixelPunk

theorem tagsOf_propagateToOne_oid (orig : FileRec)
    (origAI : Option AIInfoRec) (oid : String) (acc : DBState)
    (d : FileRec) :
    tagsOf (propagateToOne orig origAI oid acc d) oid = tagsOf acc oid := by
  rw [tagsOf_propagateToOne]
  by_cases hco : oid = d.id ∧ tagsOf acc d.id = []
  · rw [if_pos hco]
    have hnil : tagsOf acc oid = [] := by
      rw [hco.1]
      exact hco.2
    rw [hnil]
    simp
  · rw [if_neg hco]

theorem foldl_hasFile (orig : FileRec) (origAI : Option AIInfoRec)
    (oid : String) (l : List FileRec) (acc : DBState) (x : String) :
    hasFile (l.foldl (propagateToOne orig origAI oid) acc) x =
      hasFile acc x := by
  induction l generalizing acc with
  | nil => rfl
  | cons d ds ih =>
      rw [List.foldl_cons, ih, hasFile_propagateToOne]

theorem foldl_tags_oid (orig : FileRec) (origAI : Option AIInfoRec)
    (oid : String) (l : List FileRec) (acc : DBState) :
    tagsOf (l.foldl (propagateToOne orig origAI oid) acc) oid =
      tagsOf acc oid := by
  induction l generalizing acc with
  | nil => rfl
  | cons d ds ih =>
      rw [List.foldl_cons, ih, tagsOf_propagateToOne_oid]

theorem foldl_aiStatus_ne (orig : FileRec) (origAI : Option AIInfoRec)
    (oid : String) (l : List FileRec) (acc : DBState) (x : String)
    (hne : ∀ d ∈ l, ¬ x = d.id) :
    aiStatusOf (l.foldl (propagateToOne orig origAI oid) acc) x =
      aiStatusOf acc x := by
  induction l generalizing acc with
  | nil => rfl
  | cons d ds ih =>
      have hne' : ∀ e ∈ ds, ¬ x = e.id :=
        fun e he => hne e (List.mem_cons_of_mem d he)
      rw [List.foldl_cons,
        ih (propagateToOne orig origAI oid acc d) hne',
        aiStatusOf_propagateToOne,
        if_neg (hne d (List.mem_cons_self d ds))]

theorem foldl_tags_ne (orig : FileRec) (origAI : Option AIInfoRec)
    (oid : String) (l : List FileRec) (acc : DBState) (x : String)
    (hne : ∀ d ∈ l, ¬ x = d.id) :
    tagsOf (l.foldl (propagateToOne orig origAI oid) acc) x =
      tagsOf acc x := by
  induction l generalizing acc with
  | nil => rfl
  | cons d ds ih =>
      have hne' : ∀ e ∈ ds, ¬ x = e.id :=
        fun e he => hne e (List.mem_cons_of_mem d he)
      rw [List.foldl_cons,
        ih (propagateToOne orig origAI oid acc d) hne',
        tagsOf_propagateToOne,
        if_neg (fun h => hne d (List.mem_cons_self d ds) h.1)]

theorem foldl_aiInfo_ne (orig : FileRec) (origAI : Option AIInfoRec)
    (oid : String) (l : List FileRec) (acc : DBState) (x : String)
    (hne : ∀ d ∈ l, ¬ x = d.id) :
    aiInfoOf (l.foldl (propagateToOne orig origAI oid) acc) x =
      aiInfoOf acc x := by
  induction l generalizing acc with
  | nil => rfl
  | cons d ds ih =>
      have hne' : ∀ e ∈ ds, ¬ x = e.id :=
        fun e he => hne e (List.mem_cons_of_mem d he)
      rw [List.foldl_cons,
        ih (propagateToOne orig origAI oid acc d) hne',
        aiInfoOf_propagateToOne]
      cases origAI with
      | none => rfl
      | some ai =>
          dsimp only
          rw [if_neg (hne d (List.mem_cons_self d ds))]

theorem foldl_aiStatus_done (orig : FileRec) (origAI : Option AIInfoRec)
    (oid : String) (l : List FileRec) (acc : DBState) (x : String)
    (h : aiStatusOf acc x = Option.some AIStatus.done) :
    aiStatusOf (l.foldl (propagateToOne orig origAI oid) acc) x =
      Option.some AIStatus.done := by
  induction l generalizing acc with
  | nil => exact h
  | cons d ds ih =>
      rw [List.foldl_cons]
      apply ih
      rw [aiStatusOf_propagateToOne]
      by_cases hx : x = d.id
      · rw [if_pos hx, h]
        rfl
      · rw [if_neg hx]
        exact h

theorem foldl_aiInfo_stable (orig : FileRec) (ai : AIInfoRec)
    (oid : String) (l : List FileRec) (acc : DBState) (x : String)
    (h : aiInfoOf acc x = Option.some { ai with fileID := x }) :
    aiInfoOf (l.foldl (propagateToOne orig (Option.some ai) oid) acc) x =
      Option.some { ai with fileID := x } := by
  induction l generalizing acc with
  | nil => exact h
  | cons d ds ih =>
      rw [List.foldl_cons]
      apply ih
      rw [aiInfoOf_propagateToOne]
      dsimp only
      by_cases hx : x = d.id
      · rw [if_pos hx, ← hx]
      · rw [if_neg hx]
        exact h

theorem foldl_tags_stable (orig : FileRec) (origAI : Option AIInfoRec)
    (oid : String) (l : List FileRec) (acc : DBState) (x : String)
    (T : List TagRel) (hoid : tagsOf acc oid = T)
    (h : tagsOf acc x = T.map (retargetRel x)) :
    tagsOf (l.foldl (propagateToOne orig origAI oid) acc) x =
      T.map (retargetRel x) := by
  induction l generalizing acc with
  | nil => exact h
  | cons d ds ih =>
      rw [List.foldl_cons]
      apply ih
      · rw [tagsOf_propagateToOne_oid]
        exact hoid
      · rw [tagsOf_propagateToOne]
        by_cases hx : x = d.id
        · by_cases hnil : tagsOf acc d.id = []
          · rw [if_pos ⟨hx, hnil⟩, hoid, ← hx]
          · rw [if_neg (fun hcon => hnil hcon.2)]
            exact h
        · rw [if_neg (fun hcon => hx hcon.1)]
          exact h

end PixelPunk

namespace PixelPunk

/-- The soft-deleted duplicate row used by the C4 counterexample. -/
def softDeletedDup : FileRec :=
  { mkFile "b" with
    originalFileID := Option.some "a", status := "pending_deletion" }

/-- The database of the C4 counterexample: an original "a" with an AI-info
row, and a soft-deleted duplicate "b" pointing at it. -/
def c4CexDB : DBState :=
  { files := [mkFile "a", softDeletedDup]
    aiInfos := [{ fileID := "a", isNSFW := false, nsfwScore := 0
                  nsfwReason := "", description := "d" }]
    tagRels := []
    logs := []
    vectors := [] }

/-- C4 counterexample.  File "b" records "a" as its duplicate-of original
but is itself soft-deleted (`status = "pending_deletion"`): the
propagation pass skips it entirely — its job is not set `done` and no AI
metadata is copied — contradicting the claim's "for every file B". -/
theorem c4_counterexample :
    aiStatusOf (propagateAIToDuplicates c4CexDB "a") "b" ≠
      Option.some AIStatus.done ∧
    aiInfoOf (propagateAIToDuplicates c4CexDB "a") "b" = Option.none := by
  decide

/-- C4 amended.  For every file B recording A as its duplicate-of original
whose status is not `pending_deletion` (soft-deleted duplicates are
skipped), the propagation pass run after A's successful job sets B's job
status directly to `done`, clones A's AI-metadata row to B when A has one,
and copies A's tag associations to B when B has none yet — all without a
provider call, which `propagateAIToDuplicates` never makes.  Files not
recording A as their original keep their job status.  (Propagation is
spawned with `go` and every error inside it is discarded, so it cannot
change the result of A's own run.) -/
theorem c4_duplicate_propagation (db : DBState) (A : String) (B : FileRec)
    (hNodup : (db.files.map (·.id)).Nodup)
    (hBmem : B ∈ db.files)
    (hBdup : B.originalFileID = Option.some A)
    (hBstat : ¬ B.status = "pending_deletion")
    (hA : hasFile db A = true) :
    aiStatusOf (propagateAIToDuplicates db A) B.id =
      Option.some AIStatus.done ∧
    (∀ ai, aiInfoOf db A = Option.some ai →
      aiInfoOf (propagateAIToDuplicates db A) B.id =
        Option.some { ai with fileID := B.id }) ∧
    (tagsOf db B.id = [] →
      tagsOf (propagateAIToDuplicates db A) B.id =
        (tagsOf db A).map (retargetRel B.id)) ∧
    (∀ C ∈ db.files, ¬ C.originalFileID = Option.some A →
      aiStatusOf (propagateAIToDuplicates db A) C.id = aiStatusOf db C.id) := by
  have hA' : (findFile db.files A).isSome = true := hA
  rcases Option.isSome_iff_exists.mp hA' with ⟨orig, horig⟩
  set dups := db.files.filter
    (fun f => f.originalFileID = Option.some A ∧ ¬ f.status = "pending_deletion")
    with hdups
  have hBdups : B ∈ dups := by
    rw [hdups]
    apply List.mem_filter.mpr
    refine ⟨hBmem, ?_⟩
    simp [hBdup, hBstat]
  have hnil : ¬ dups = [] := by
    intro hn
    rw [hn] at hBdups
    simp at hBdups
  have hprop : propagateAIToDuplicates db A =
      dups.foldl (propagateToOne orig (aiInfoOf db A) A) db := by
    unfold propagateAIToDuplicates
    rw [horig]
    dsimp only
    rw [if_neg hnil]
    rfl
  have hdnd : (dups.map (·.id)).Nodup := by
    apply List.Nodup.sublist _ hNodup
    rw [hdups]
    exact List.Sublist.map _ (List.filter_sublist db.files)
  rcases List.append_of_mem hBdups with ⟨l1, l2, hsplit⟩
  have hndApp : ((l1 ++ B :: l2).map (·.id)).Nodup := by
    rw [← hsplit]
    exact hdnd
  rw [List.map_append, List.map_cons] at hndApp
  have hBl1 : ∀ d ∈ l1, ¬ B.id = d.id := by
    intro d hd hcon
    have hdisj := List.disjoint_of_nodup_append hndApp
    exact hdisj (List.mem_map_of_mem _ hd)
      (by
        rw [← hcon]
        exact List.mem_cons_self _ _)
  have hBhas : hasFile db B.id = true := by
    rcases findFile_of_mem hBmem with ⟨f', hf'⟩
    unfold hasFile
    rw [hf']
    rfl
  have hfold : dups.foldl (propagateToOne orig (aiInfoOf db A) A) db =
      l2.foldl (propagateToOne orig (aiInfoOf db A) A)
        (propagateToOne orig (aiInfoOf db A) A
          (l1.foldl (propagateToOne orig (aiInfoOf db A) A) db) B) := by
    rw [hsplit, List.foldl_append, List.foldl_cons]
  have hasP : hasFile
      (l1.foldl (propagateToOne orig (aiInfoOf db A) A) db) B.id = true := by
    rw [foldl_hasFile]
    exact hBhas
  refine ⟨?_, ?_, ?_, ?_⟩
  · rw [hprop, hfold]
    apply foldl_aiStatus_done
    rw [aiStatusOf_propagateToOne, if_pos rfl]
    have h2 : (findFile
        (l1.foldl (propagateToOne orig (aiInfoOf db A) A) db).files
        B.id).isSome = true := hasP
    rcases Option.isSome_iff_exists.mp h2 with ⟨g, hg⟩
    unfold aiStatusOf
    rw [hg]
    rfl
  · intro ai hai
    rw [hprop, hfold, hai]
    apply foldl_aiInfo_stable
    rw [aiInfoOf_propagateToOne]
    dsimp only
    rw [if_pos rfl]
  · intro htagsB
    have htagsP_B : tagsOf
        (l1.foldl (propagateToOne orig (aiInfoOf db A) A) db) B.id = [] := by
      rw [foldl_tags_ne _ _ _ _ _ _ hBl1]
      exact htagsB
    have htagsP_A : tagsOf
        (l1.foldl (propagateToOne orig (aiInfoOf db A) A) db) A =
        tagsOf db A := foldl_tags_oid _ _ _ _ _
    rw [hprop, hfold]
    apply foldl_tags_stable _ _ _ _ _ _ (tagsOf db A)
    · rw [tagsOf_propagateToOne_oid]
      exact htagsP_A
    · rw [tagsOf_propagateToOne, if_pos ⟨rfl, htagsP_B⟩, htagsP_A]
  · intro C hC hCdup
    have hCne : ∀ d ∈ dups, ¬ C.id = d.id := by
      intro d hd hcon
      have hd' : d ∈ db.files ∧ _ := List.mem_filter.mp (hdups ▸ hd)
      have hdC : d = C :=
        List.inj_on_of_nodup_map hNodup hd'.1 hC hcon.symm
      have hpred := hd'.2
      simp only [decide_eq_true_eq] at hpred
      exact hCdup (hdC ▸ hpred.1)
    rw [hprop]
    exact foldl_aiStatus_ne _ _ _ _ _ _ hCne

/-- C4 witness: a live duplicate gets its job marked done by the
propagation pass. -/
theorem c4_witness :
    aiStatusOf (propagateAIToDuplicates
      (mkDB [mkFile "a", { mkFile "b" with
        originalFileID := Option.some "a" }]) "a") "b" =
      Option.some AIStatus.done :=
  (c4_duplicate_propagation
    (mkDB [mkFile "a", { mkFile "b" with originalFileID := Option.some "a" }])
    "a" { mkFile "b" with originalFileID := Option.some "a" }
    (by decide) (by decide) (by decide) (by decide) (by decide)).1

end PixelPunk
